import Mathlib

/-!
Verification of the naver-bc-automation job-execution engine.

This file gives a shallow embedding, in Lean, of the queue dispatcher
(`scripts queue worker`), the job-cancel HTTP route, and the keyword-mode
scrape pipeline of `scripts/scrape-job.ts`, and proves properties of the
embedded definitions.

Modelling conventions:
* JavaScript `Date` values are epoch milliseconds (`Int`).
* Prisma `findMany` results are lists in store order; `take n` is `List.take`.
* Nullable columns are `Option`.
* The external search API, the per-candidate extractor, the cancel flag and
  the sheet sink are environment functions supplied to the model.
-/

namespace NaverBC

/-! ## Dispatcher (queue worker `tick`) -/

inductive JobStatus
  | QUEUED
  | RUNNING
  | SUCCESS
  | FAILED
  | CANCELLED
deriving DecidableEq, Repr

inductive JobType
  | SCRAPE
  | REFRESH_CAFES
deriving DecidableEq, Repr

/-- The `ScrapeJob` record fields used by the worker `tick` loop. -/
structure Job where
  id : Nat
  jobType : JobType
  status : JobStatus
  createdAt : Int
  startedAt : Option Int
  completedAt : Option Int
  errorMessage : Option String
deriving DecidableEq, Repr

/-- `staleMs` constant of `clearStaleRunningJobs`: 5 minutes in milliseconds. -/
def staleMs : Int := 1000 * 60 * 5

/-- Diagnostic message written by `clearStaleRunningJobs`. -/
def staleMessage : String := "stale RUNNING job auto-failed by worker (timeout)"

/-- The Prisma `where` filter of the stale scan:
`status = RUNNING`, `startedAt < cutoff`, `completedAt = null`. -/
def isStale (now : Int) (j : Job) : Bool :=
  j.status = JobStatus.RUNNING &&
    (match j.startedAt with
     | some t => decide (t < now - staleMs)
     | none => false) &&
    j.completedAt = none

/-- The ids returned by the stale scan (`findMany` with `take: 20`). -/
def staleIdsOf (now : Int) (jobs : List Job) : List Nat :=
  ((jobs.filter (isStale now)).take 20).map (·.id)

/-- The per-job update of `clearStaleRunningJobs`. -/
def staleUpdate (now : Int) (staleIds : List Nat) (j : Job) : Job :=
  if j.id ∈ staleIds then
    { j with
        status := JobStatus.FAILED
        errorMessage := some staleMessage
        completedAt := some now }
  else j

/-- `clearStaleRunningJobs`: select at most 20 stale RUNNING jobs
(`take: 20`) and force each of them to FAILED with the diagnostic message. -/
def clearStaleRunningJobs (now : Int) (jobs : List Job) : List Job :=
  jobs.map (staleUpdate now (staleIdsOf now jobs))

/-- What the dispatcher did in one tick, after the stale scan. -/
inductive TickOutcome
  | busy (running : Nat)
  | idle
  | runRefresh (id : Nat)
  | runScrape (id : Nat)
deriving DecidableEq, Repr

/-- Job id selected for execution by the tick, if any. -/
def TickOutcome.selectedId : TickOutcome → Option Nat
  | .busy _ => none
  | .idle => none
  | .runRefresh id => some id
  | .runScrape id => some id

/-- Fold step selecting the earlier-created of two jobs (first one wins
ties, matching `orderBy createdAt asc` over the store order). -/
def pickOlder (best : Option Job) (j : Job) : Option Job :=
  match best with
  | none => some j
  | some b => if j.createdAt < b.createdAt then some j else some b

/-- `findFirst` with `where: status QUEUED, orderBy: createdAt asc`:
the first job (in store order) among those with minimal `createdAt`
whose status is QUEUED. -/
def findOldestQueued (jobs : List Job) : Option Job :=
  (jobs.filter (·.status = JobStatus.QUEUED)).foldl pickOlder none

/-- One dispatcher `tick`: clear stale RUNNING jobs, return busy when a job
is still RUNNING, otherwise pick the oldest QUEUED job (REFRESH_CAFES jobs
are completed in place, scrape jobs are handed to the worker script).
The rate-limited heartbeat and the hourly cafe refresh write only to
unrelated state and are elided. -/
def tick (now : Int) (jobs : List Job) : List Job × TickOutcome :=
  let jobs1 := clearStaleRunningJobs now jobs
  let running := (jobs1.filter (·.status = JobStatus.RUNNING)).length
  if 0 < running then
    (jobs1, TickOutcome.busy running)
  else
    match findOldestQueued jobs1 with
    | none => (jobs1, TickOutcome.idle)
    | some nextJob =>
      if nextJob.jobType = JobType.REFRESH_CAFES then
        (jobs1.map fun j =>
          if j.id = nextJob.id then
            { j with status := JobStatus.SUCCESS, completedAt := some now }
          else j,
         TickOutcome.runRefresh nextJob.id)
      else
        (jobs1, TickOutcome.runScrape nextJob.id)

/-! ## Cancel route (`POST /api/scrape-jobs/[id]/cancel`) -/

/-- Settings key `scrapeJobProgress:<jobId>` (job ids modelled as `Nat`). -/
def progressKey (jobId : Nat) : String :=
  "scrapeJobProgress:" ++ toString jobId

/-- Settings key `scrapeJobCancel:<jobId>`. -/
def cancelKey (jobId : Nat) : String :=
  "scrapeJobCancel:" ++ toString jobId

/-- A value held in the key-value settings store. `progressCancelled prev`
stands for the previous progress JSON spread with
`stage: "CANCELLED", message: "cancel requested"` and a fresh `updatedAt`
(the JSON merge itself is not observed by any claim). -/
inductive SettingValue
  | plain (s : String)
  | progressCancelled (previous : Option SettingValue)

/-- State shared between the route and the worker:
the `scrapeJob` table and the `setting` key-value table. -/
structure StoreState where
  jobs : List Job
  settings : List (String × SettingValue)

/-- `prisma.setting.findUnique` on a key. -/
def settingGet (st : StoreState) (key : String) : Option SettingValue :=
  (st.settings.find? (·.1 = key)).map (·.2)

/-- `prisma.setting.upsert`. -/
def settingUpsert (st : StoreState) (key : String) (v : SettingValue) :
    StoreState :=
  if st.settings.any (·.1 = key) then
    { st with settings := st.settings.map fun kv =>
        if kv.1 = key then (key, v) else kv }
  else
    { st with settings := st.settings ++ [(key, v)] }

/-- `prisma.setting.deleteMany` over a key list. -/
def settingDeleteMany (st : StoreState) (keys : List String) : StoreState :=
  { st with settings := st.settings.filter (·.1 ∉ keys) }

/-- HTTP result of the cancel route. -/
inductive CancelResponse
  | unauthorized
  | notFound
  | cancelledQueued
  | cancelRequested
deriving DecidableEq, Repr

/-- The cancel route handler. Besides the new state and the response it
returns the list of job-status values the handler wrote for the target job,
in order, so that "never enters RUNNING" is visible in the model. -/
def cancelRoutePost (now : Int) (authed : Bool) (st : StoreState) (id : Nat) :
    StoreState × CancelResponse × List JobStatus :=
  if !authed then (st, CancelResponse.unauthorized, [])
  else
    match st.jobs.find? (·.id = id) with
    | none => (st, CancelResponse.notFound, [])
    | some job =>
      if job.status = JobStatus.QUEUED then
        -- Still queued: cancel immediately, then delete both setting keys.
        let st1 : StoreState :=
          { st with jobs := st.jobs.map fun j =>
              if j.id = id then
                { j with
                    status := JobStatus.CANCELLED
                    completedAt := some now
                    errorMessage := some "cancelled by user (queued)" }
              else j }
        let st2 := settingDeleteMany st1 [progressKey id, cancelKey id]
        (st2, CancelResponse.cancelledQueued, [JobStatus.CANCELLED])
      else
        -- Mark cancel requested; worker will stop gracefully.
        let prev := settingGet st (progressKey id)
        let st1 := settingUpsert st (progressKey id)
          (SettingValue.progressCancelled prev)
        let st2 := settingUpsert st1 (cancelKey id)
          (SettingValue.plain "true")
        (st2, CancelResponse.cancelRequested, [])

/-! ## Text helpers of `scripts/scrape-job.ts`

JS `replace(/\s+/g, "")` is modelled by removing whitespace characters and
`toLowerCase()` by `String.toLower` (ASCII case folding; the Korean strings
involved are unaffected by case folding). -/

/-- `toLowerCase()` (ASCII folding, via the character list). -/
def toLowerStr (s : String) : String :=
  String.mk (s.toList.map Char.toLower)

/-- `.trim()` (via the character list). -/
def trimStr (s : String) : String :=
  String.mk
    (((s.toList.dropWhile Char.isWhitespace).reverse.dropWhile
      Char.isWhitespace).reverse)

/-- `text.replace(/\s+/g, "").toLowerCase()`. -/
def compactLower (s : String) : String :=
  String.mk ((s.toList.filter fun c => !c.isWhitespace).map Char.toLower)

/-- JS `hay.includes(needle)` as a contiguous-substring test on the
character lists. -/
def isSubstringOf (needle hay : String) : Bool :=
  decide (needle.toList <:+: hay.toList)

/-- `includesKeyword`: compact and lowercase both sides; an empty keyword
always matches; otherwise a substring test. -/
def includesKeyword (text keyword : String) : Bool :=
  let compact := compactLower text
  let kw := compactLower keyword
  if kw = "" then true
  else isSubstringOf kw compact

/-- `isAllowedByWords`: if `includeWords` is non-empty at least one must hit,
and no `excludeWords` entry may hit; words are lowercased (not compacted),
the text is compacted and lowercased. -/
def isAllowedByWords (text : String) (includeWords excludeWords : List String) :
    Bool :=
  let compact := compactLower text
  (includeWords.isEmpty ||
    includeWords.any fun w => isSubstringOf (toLowerStr w) compact) &&
  !(!excludeWords.isEmpty &&
    excludeWords.any fun w => isSubstringOf (toLowerStr w) compact)

/-- `normalizeBoardToken`: lowercase and remove all whitespace
(the trailing `.trim()` is a no-op after whitespace removal). -/
def normalizeBoardToken (s : String) : String :=
  compactLower s

/-- `subject.replace(/<[^>]*>/g, "")` on a character list, as a one-pass
scan: a `<` that is followed (with no intervening `>`) by a `>` is removed
together with everything up to and including that `>` (`inTag` mode); an
unmatched `<` is kept verbatim, exactly as the regex leaves it. -/
def stripTagsAux (inTag : Bool) : List Char → List Char
  | [] => []
  | c :: rest =>
    if inTag then
      if c = '>' then stripTagsAux false rest else stripTagsAux true rest
    else if c = '<' && rest.contains '>' then stripTagsAux true rest
    else c :: stripTagsAux false rest

/-- Highlight-markup removal applied to search-API subjects. -/
def stripTags (s : String) : String :=
  String.mk (stripTagsAux false s.toList)

/-! ## Candidate collection (`fetchCandidatesFromSearchApi`,
`collectArticleCandidates`) -/

/-- One row of the search API response, after JSON field access:
`typeIsArticle` is `row.type === "ARTICLE"`; `articleId = 0` stands for a
falsy `item.articleId`; `addedAt` is the result of
`parseNaverCafeDate(item.addDate)` (`none` when the date failed to parse);
`boardName` is the first non-empty of the board-name fallback fields. -/
structure SearchRow where
  typeIsArticle : Bool
  articleId : Nat
  subject : String
  readCount : Nat
  commentCount : Nat
  likeCount : Nat
  boardType : String
  boardName : String
  addedAt : Option Int
deriving DecidableEq, Repr

structure ArticleCandidate where
  articleId : Nat
  url : String
  subject : String
  readCount : Nat
  commentCount : Nat
  likeCount : Nat
  boardType : String
  boardName : String
  addedAt : Option Int
  queryKeyword : String
deriving DecidableEq, Repr

/-- Row-to-candidate normalization inside `fetchCandidatesFromSearchApi`
(percent-encoding of the numeric ids in the URL is elided). -/
def toCandidate (cafeNumericId keyword : String) (r : SearchRow) :
    Option ArticleCandidate :=
  if !r.typeIsArticle then none
  else if r.articleId = 0 then none
  else some
    { articleId := r.articleId
      url := "https://cafe.naver.com/ArticleRead.nhn?clubid=" ++ cafeNumericId
        ++ "&articleid=" ++ toString r.articleId
      subject := stripTags r.subject
      readCount := r.readCount
      commentCount := r.commentCount
      likeCount := r.likeCount
      boardType := if r.boardType = "" then "L" else r.boardType
      boardName := trimStr r.boardName
      addedAt := r.addedAt
      queryKeyword := keyword }

/-- A cafe as seen by the collector: the resolved numeric id (`getClubId`)
and the search API (`keyword → page number → rows`; `none` is a non-ok
HTTP response). -/
structure CafeEnv where
  numericId : String
  pages : String → Nat → Option (List SearchRow)

/-- Page loop of `fetchCandidatesFromSearchApi`. Returns the page numbers
requested, the candidates parsed, and whether the call threw
(first page not ok). A non-ok later page or an empty page breaks the loop. -/
def fetchGo (env : CafeEnv) (keyword : String) (first : Nat) :
    Nat → Nat → List Nat × List ArticleCandidate × Bool
  | 0, _ => ([], [], false)
  | rem + 1, t =>
    match env.pages keyword t with
    | none => ([t], [], t = first)
    | some list =>
      if list.isEmpty then ([t], [], false)
      else
        let rows := list.filterMap (toCandidate env.numericId keyword)
        let rest := fetchGo env keyword first rem (t + 1)
        (t :: rest.1, rows ++ rest.2.1, rest.2.2)

/-- `fetchCandidatesFromSearchApi` as used by the collector, including the
collector's `.catch(() => [])`: requests `max(1, min(8, maxPages))`
sequential pages (`perPage=20`) starting at `pageNum`; a thrown first-page
error surfaces as an empty row list. Returns the requested page numbers and
the rows. -/
def fetchCandidatesFromSearchApi (env : CafeEnv) (keyword : String)
    (pageNum maxPages : Nat) : List Nat × List ArticleCandidate :=
  let requestedPages := max 1 (min 8 maxPages)
  let r := fetchGo env keyword pageNum requestedPages pageNum
  (r.1, if r.2.2 then [] else r.2.1)

/-- Token match of `isExcludedBoard`: exact, or substring in either
direction. -/
def boardTokenMatches (board blocked : String) : Bool :=
  board = blocked || isSubstringOf blocked board || isSubstringOf board blocked

/-- `isExcludedBoard` over the normalized excluded-board token set
(the set is `excludeBoards.map normalizeBoardToken` built in `run`). -/
def isExcludedBoard (c : ArticleCandidate) (excludedTokens : List String) :
    Bool :=
  if excludedTokens.isEmpty then false
  else
    (([c.boardType, c.boardName].filter (· ≠ "")).map normalizeBoardToken).any
      fun board =>
        board ≠ "" && excludedTokens.any fun blocked =>
          blocked ≠ "" && boardTokenMatches board blocked

/-- Accumulator of the per-keyword candidate loop: article ids seen so far
(dedup set) and candidates kept so far. -/
structure CollectAcc where
  seen : List Nat
  candidates : List ArticleCandidate
deriving DecidableEq, Repr

/-- Inner `for (let i = 0; i < take; ...)` loop of
`collectArticleCandidates`: skip excluded boards, dedup by article id
(`seen` grows even when the candidate cap is hit), push while below
`maxUrls`. -/
def collectKeywordRows (excludedTokens : List String) (maxUrls : Nat) :
    List ArticleCandidate → CollectAcc → CollectAcc
  | [], acc => acc
  | row :: rest, acc =>
    if isExcludedBoard row excludedTokens then
      collectKeywordRows excludedTokens maxUrls rest acc
    else if row.articleId ∈ acc.seen then
      collectKeywordRows excludedTokens maxUrls rest acc
    else
      collectKeywordRows excludedTokens maxUrls rest
        { seen := acc.seen ++ [row.articleId]
          candidates :=
            if acc.candidates.length < maxUrls then
              acc.candidates ++ [row]
            else acc.candidates }

/-- Sort key of the final candidate sort:
`addedAt ? addedAt.getTime() : 0`. -/
def candSortKey (c : ArticleCandidate) : Int :=
  c.addedAt.getD 0

/-- `candidates.sort((a, b) => bt - at)`: stable sort by `candSortKey`
descending. -/
def sortByAddedAtDesc (l : List ArticleCandidate) : List ArticleCandidate :=
  List.insertionSort (fun a b => candSortKey b ≤ candSortKey a) l

/-- Per-keyword step of the collector loop: fetch the keyword's pages,
keep at most `perKeywordTake` of the fetched rows, and fold them into the
dedup accumulator. -/
def collectStep (env : CafeEnv) (excludedTokens : List String)
    (maxUrls perKeywordTake pagesToFetch : Nat)
    (acc : List (String × Nat) × CollectAcc) (kw : String) :
    List (String × Nat) × CollectAcc :=
  let fetched := fetchCandidatesFromSearchApi env kw 1 pagesToFetch
  let takeN := max 1 (min perKeywordTake fetched.2.length)
  (acc.1 ++ fetched.1.map (fun p => (kw, p)),
   collectKeywordRows excludedTokens maxUrls (fetched.2.take takeN) acc.2)

/-- `collectArticleCandidates` for one cafe: for each keyword fetch up to
`min(6, ceil(perKeywordTake / 20))` pages starting at page 1, keep at most
`perKeywordTake` rows of the fetch, dedup by article id across keywords,
cap at `maxUrls`, then sort by `addedAt` descending and truncate to
`maxUrls`. Returns the requested (keyword, page) pairs and the candidates.
Progress writes are elided. -/
def collectArticleCandidates (env : CafeEnv) (keywords : List String)
    (excludedTokens : List String) (maxUrls : Nat) :
    List (String × Nat) × List ArticleCandidate :=
  let perKeywordTake := max 1 (maxUrls / max 1 keywords.length)
  let pagesToFetch := min 6 ((perKeywordTake + 19) / 20)
  let r := keywords.foldl
    (collectStep env excludedTokens maxUrls perKeywordTake pagesToFetch)
    ([], ⟨[], []⟩)
  (r.1, (sortByAddedAtDesc r.2.candidates).take maxUrls)

/-! ## The keyword-mode `run` of `scripts/scrape-job.ts` -/

/-- The fields of a `ParsedPost` that survive to filtering, the sheet sink
and the DB insert (cafe metadata, raw HTML and the unused comment list are
elided; `bodyText`/`commentsText` ride along inside `contentText`). -/
structure ParsedPost where
  sourceUrl : String
  title : String
  contentText : String
  publishedAt : Option Int
  viewCount : Nat
  likeCount : Nat
  commentCount : Nat
deriving DecidableEq, Repr

/-- The `ScrapeJob` fields consumed by keyword-mode `run` after JSON
parsing. `cafeCount` stands for the parsed `cafeIds` array (only its length
drives the model; cafe identity lives in the environment). -/
structure JobSpec where
  keywords : List String
  includeWords : List String
  excludeWords : List String
  excludeBoards : List String
  cafeCount : Nat
  fromDate : Option Int
  toDate : Option Int
  minViewCount : Option Int
  minCommentCount : Option Int
  useAutoFilter : Bool
  maxPosts : Nat

/-- External collaborators of one job run: per-cafe search API, the
extractor outcome per candidate (`none` models a failed/timed-out/rejected
`parsePost`), the cancel flag value returned by the n-th
`isCancelRequested` read, and the success of the n-th sheet flush. -/
structure RunEnv where
  cafe : Nat → CafeEnv
  parse : Nat → ArticleCandidate → Option ParsedPost
  cancel : Nat → Bool
  sheetOk : Nat → Bool

/-- Observable events of one run, in order. -/
inductive RunEvent
  | cancelCheck (value : Bool)
  | cafePass (cafeIdx : Nat)
  | searchRequest (keyword : String) (pageNo : Nat)
  | parseAttempt (articleId : Nat)
  | sheetFlush (rows : Nat)
deriving DecidableEq, Repr

/-- Mutable state threaded through the run loops. -/
structure RunState where
  trace : List RunEvent
  checks : Nat
  flushes : Nat
  synced : Nat
  collected : List ParsedPost
deriving DecidableEq, Repr

/-- Result of a loop: completed normally, or aborted via the thrown
`"cancelled"` signal. -/
inductive StepRes
  | done (st : RunState)
  | cancelled (st : RunState)
deriving DecidableEq, Repr

/-- One `isCancelRequested` read. -/
def checkCancel (env : RunEnv) (st : RunState) : Bool × RunState :=
  let v := env.cancel st.checks
  (v, { st with
          checks := st.checks + 1
          trace := st.trace ++ [RunEvent.cancelCheck v] })

/-- The fast date filter on a candidate (lines
`if (job.fromDate && cand.addedAt && cand.addedAt < job.fromDate) continue`
and the symmetric `toDate` check): `true` means the candidate is skipped.
A candidate whose `addedAt` failed to parse is never skipped here. -/
def dateSkip (job : JobSpec) (cand : ArticleCandidate) : Bool :=
  (match job.fromDate, cand.addedAt with
   | some f, some a => decide (a < f)
   | _, _ => false) ||
  (match job.toDate, cand.addedAt with
   | some t, some a => decide (t < a)
   | _, _ => false)

/-- Early count filter from the list API. -/
def countSkip (job : JobSpec) (cand : ArticleCandidate) : Bool :=
  (match job.minViewCount with
   | some m => decide ((cand.readCount : Int) < m)
   | none => false) ||
  (match job.minCommentCount with
   | some m => decide ((cand.commentCount : Int) < m)
   | none => false)

/-- `parseBudget` per cafe: `Math.max(20, job.maxPosts * 8)`. -/
def parseBudget (job : JobSpec) : Nat :=
  max 20 (job.maxPosts * 8)

/-- Candidate cap per cafe passed to the collector when the job still needs
posts: `Math.min(120, Math.max(30, Math.ceil(job.maxPosts * 6)))`. -/
def cafeCandidateCap (maxPosts : Nat) : Nat :=
  min 120 (max 30 (maxPosts * 6))

/-- Combined text of the keyword relevance check and of the word filter:
`${cand.subject}\n${parsed.title}\n${parsed.contentText}`. -/
def combinedCheckText (cand : ArticleCandidate) (p : ParsedPost) : String :=
  cand.subject ++ "\n" ++ p.title ++ "\n" ++ p.contentText

/-- Count/date/title backfill from the search-API candidate applied to an
accepted parse result (zero counts are replaced, `publishedAt` is
overwritten when the candidate has a date, a missing or too-short title
falls back to the candidate subject). -/
def applyCandBackfill (cand : ArticleCandidate) (p : ParsedPost) :
    ParsedPost :=
  let p := if p.viewCount = 0 then { p with viewCount := cand.readCount } else p
  let p := if p.likeCount = 0 then { p with likeCount := cand.likeCount } else p
  let p :=
    if p.commentCount = 0 then { p with commentCount := cand.commentCount }
    else p
  let p :=
    match cand.addedAt with
    | some t => { p with publishedAt := some t }
    | none => p
  if p.title = "" || (trimStr p.title).length < 2 then
    { p with title := if cand.subject = "" then p.title else cand.subject }
  else p

/-- Candidate loop of keyword mode (`for (const cand of candidates)`):
cancel check first, then the `maxPosts` and `parseBudget` breaks, the
date/count skips, the parse, the keyword relevance gate, the backfill, the
word filter, and on acceptance the sheet push plus an immediate flush
(`flushSheetRows` sends as soon as one row is pending). -/
def runCandLoop (env : RunEnv) (job : JobSpec) (cafeIdx : Nat) :
    List ArticleCandidate → Nat → RunState → StepRes
  | [], _, st => StepRes.done st
  | cand :: rest, attempts, st =>
    let c := checkCancel env st
    if c.1 then StepRes.cancelled c.2
    else
      let st := c.2
      if job.maxPosts ≤ st.collected.length then StepRes.done st
      else if parseBudget job ≤ attempts then StepRes.done st
      else if dateSkip job cand then runCandLoop env job cafeIdx rest attempts st
      else if countSkip job cand then
        runCandLoop env job cafeIdx rest attempts st
      else
        let st := { st with trace := st.trace ++ [RunEvent.parseAttempt cand.articleId] }
        match env.parse cafeIdx cand with
        | none => runCandLoop env job cafeIdx rest (attempts + 1) st
        | some parsed =>
          if !includesKeyword (combinedCheckText cand parsed) cand.queryKeyword
          then runCandLoop env job cafeIdx rest (attempts + 1) st
          else
            let parsed2 := applyCandBackfill cand parsed
            if !isAllowedByWords (combinedCheckText cand parsed2)
                job.includeWords job.excludeWords then
              runCandLoop env job cafeIdx rest (attempts + 1) st
            else
              let ok := env.sheetOk st.flushes
              let st :=
                { st with
                    collected := st.collected ++ [parsed2]
                    flushes := st.flushes + 1
                    synced := st.synced + (if ok then 1 else 0)
                    trace := st.trace ++ [RunEvent.sheetFlush 1] }
              runCandLoop env job cafeIdx rest (attempts + 1) st

/-- Cafe loop of keyword mode: cancel check, candidate collection (always
executed so every keyword is searched once per cafe, with a cap of 1 when
enough posts were already collected), then the candidate loop unless the
job already has `maxPosts` posts. -/
def runCafesGo (env : RunEnv) (job : JobSpec) :
    List Nat → RunState → StepRes
  | [], st => StepRes.done st
  | i :: rest, st =>
    let c := checkCancel env st
    if c.1 then StepRes.cancelled c.2
    else
      let st := c.2
      let alreadyEnough := job.maxPosts ≤ st.collected.length
      let maxUrls := if alreadyEnough then 1 else cafeCandidateCap job.maxPosts
      let collected := collectArticleCandidates (env.cafe i) job.keywords
        (job.excludeBoards.map normalizeBoardToken) maxUrls
      let st :=
        { st with trace := st.trace ++ [RunEvent.cafePass i]
            ++ collected.1.map fun kp => RunEvent.searchRequest kp.1 kp.2 }
      if alreadyEnough then runCafesGo env job rest st
      else
        match runCandLoop env job i collected.2 0 st with
        | StepRes.cancelled st2 => StepRes.cancelled st2
        | StepRes.done st2 => runCafesGo env job rest st2

/-! ## Post-run filtering, capping and persistence -/

/-- Ascending numeric sort (`.sort((a, b) => a - b)`). -/
def sortCountsAsc (l : List Nat) : List Nat :=
  List.insertionSort (fun a b => a ≤ b) l

/-- Effective minimum of one dimension of `clampByAutoThreshold`:
with auto filtering on and no explicit minimum, `sorted[mid] || 0` where
`mid = floor(length / 2)`. -/
def appliedMin (useAutoFilter : Bool) (explicitMin : Option Int)
    (counts : List Nat) : Option Int :=
  if useAutoFilter then
    match explicitMin with
    | some m => some m
    | none => some (((sortCountsAsc counts).get? (counts.length / 2)).getD 0 : Nat)
  else explicitMin

/-- `clampByAutoThreshold`. -/
def clampByAutoThreshold (posts : List ParsedPost) (useAutoFilter : Bool)
    (minView minComment : Option Int) : List ParsedPost :=
  if !useAutoFilter && minView = none && minComment = none then posts
  else
    let appliedMinView :=
      appliedMin useAutoFilter minView (posts.map (·.viewCount))
    let appliedMinComment :=
      appliedMin useAutoFilter minComment (posts.map (·.commentCount))
    posts.filter fun p =>
      (match appliedMinView with
       | some m => !decide ((p.viewCount : Int) < m)
       | none => true) &&
      (match appliedMinComment with
       | some m => !decide ((p.commentCount : Int) < m)
       | none => true)

/-- A previously stored `scrapePost` row (the columns the dedup reads). -/
structure StoredPost where
  sourceUrl : String
  contentHash : String
deriving DecidableEq, Repr

/-- The string hashed for a post:
`contentHash(`${post.sourceUrl}\n${post.contentText}`)`. -/
def hashInput (p : ParsedPost) : String :=
  p.sourceUrl ++ "\n" ++ p.contentText

/-- The skip condition of the DB insert loop:
`Boolean(existedByHash) || (existedByUrl && existedByUrl.contentHash === hash)`
where `existedByHash` is `findUnique` by `contentHash` and `existedByUrl`
is `findFirst` by `sourceUrl`. -/
def isSameAsExisting (hash : String → String) (store : List StoredPost)
    (p : ParsedPost) : Bool :=
  store.any (·.contentHash = hash (hashInput p)) ||
    (match store.find? (·.sourceUrl = p.sourceUrl) with
     | some row => row.contentHash = hash (hashInput p)
     | none => false)

/-- One iteration of the DB insert loop, parameterized by the digest
function `hash` (the `src/lib/scrape/hash` module itself is not part of the
snapshot). Returns the new store and whether a row was inserted. -/
def saveStep (hash : String → String) (store : List StoredPost)
    (p : ParsedPost) : List StoredPost × Bool :=
  if isSameAsExisting hash store p then (store, false)
  else (store ++ [{ sourceUrl := p.sourceUrl, contentHash := hash (hashInput p) }],
        true)

/-- The DB insert loop over `finalPosts`: threads the store and counts the
inserted rows (`savedCount`). -/
def savePosts (hash : String → String) (store : List StoredPost) :
    List ParsedPost → List StoredPost × Nat
  | [] => (store, 0)
  | p :: rest =>
    let s := saveStep hash store p
    let r := savePosts hash s.1 rest
    (r.1, (if s.2 then 1 else 0) + r.2)

/-- Terminal observable outcome of one worker invocation
(`run` plus the `main` catch handler). -/
structure RunOutput where
  trace : List RunEvent
  status : JobStatus
  errorMessage : Option String
  resultCount : Nat
  sheetSynced : Nat
  store : List StoredPost
  collected : List ParsedPost
  finalPosts : List ParsedPost

/-- A full keyword-mode worker invocation over an initial post store:
run the cafe loop; on normal completion apply `clampByAutoThreshold`,
truncate to `maxPosts`, run the insert loop and record SUCCESS; on the
thrown `"cancelled"` signal `main` records CANCELLED with message
`"cancelled by user"` and no insert loop runs (`resultCount` keeps its
initial 0, while the sheet syncs already flushed remain counted). -/
def runScrapeJob (env : RunEnv) (hash : String → String)
    (store : List StoredPost) (job : JobSpec) : RunOutput :=
  let st0 : RunState := ⟨[], 0, 0, 0, []⟩
  match runCafesGo env job (List.range job.cafeCount) st0 with
  | StepRes.cancelled st =>
    { trace := st.trace
      status := JobStatus.CANCELLED
      errorMessage := some "cancelled by user"
      resultCount := 0
      sheetSynced := st.synced
      store := store
      collected := st.collected
      finalPosts := [] }
  | StepRes.done st =>
    let filtered := clampByAutoThreshold st.collected job.useAutoFilter
      job.minViewCount job.minCommentCount
    let final := filtered.take job.maxPosts
    let saved := savePosts hash store final
    { trace := st.trace
      status := JobStatus.SUCCESS
      errorMessage := none
      resultCount := saved.2
      sheetSynced := st.synced
      store := saved.1
      collected := st.collected
      finalPosts := final }

/-! ## Trace predicates for the cancellation protocol and the sink -/

/-- The state of a loop result. -/
def StepRes.state : StepRes → RunState
  | StepRes.done st => st
  | StepRes.cancelled st => st

/-- Scan step for the claim "the cancel flag is checked before each keyword
search": a search request that starts a keyword's search (`pageNo = 1`)
must be preceded by a cancel-flag read with no other search request in
between. The pair carries (all checks so far passed, a cancel read happened
since the last search request). -/
def searchCheckStep (acc : Bool × Bool) (e : RunEvent) : Bool × Bool :=
  match e with
  | RunEvent.cancelCheck _ => (acc.1, true)
  | RunEvent.searchRequest _ p => (acc.1 && (decide (p ≠ 1) || acc.2), false)
  | _ => acc

def searchesCancelChecked (tr : List RunEvent) : Bool :=
  (tr.foldl searchCheckStep (true, false)).1

/-- Scan step: every parse attempt must be preceded by a cancel-flag read
with no other parse attempt in between. -/
def parseCheckStep (acc : Bool × Bool) (e : RunEvent) : Bool × Bool :=
  match e with
  | RunEvent.cancelCheck _ => (acc.1, true)
  | RunEvent.parseAttempt _ => (acc.1 && acc.2, false)
  | _ => acc

def parsesCancelChecked (tr : List RunEvent) : Bool :=
  (tr.foldl parseCheckStep (true, false)).1

/-- Scan step: every cafe search-and-collect pass must immediately follow a
cancel-flag read. -/
def cafeCheckStep (acc : Bool × Bool) (e : RunEvent) : Bool × Bool :=
  match e with
  | RunEvent.cancelCheck _ => (acc.1, true)
  | RunEvent.cafePass _ => (acc.1 && acc.2, false)
  | _ => (acc.1, false)

def cafePassesChecked (tr : List RunEvent) : Bool :=
  (tr.foldl cafeCheckStep (true, false)).1

/-- Sheet flush events in a trace. -/
def isFlushEvent : RunEvent → Bool
  | RunEvent.sheetFlush _ => true
  | _ => false

/-- A post that was accepted by the candidate loop: it is the backfilled
form of some successful parse that passed the keyword relevance gate. -/
def AcceptedOk (env : RunEnv) (p : ParsedPost) : Prop :=
  ∃ i cand parsed, env.parse i cand = some parsed ∧
    includesKeyword (combinedCheckText cand parsed) cand.queryKeyword = true ∧
    p = applyCandBackfill cand parsed

/-! ## Concrete instances used in witnesses and counterexamples -/

/-- C1 counterexample data: 21 stale RUNNING jobs (`startedAt = 0`,
no progress since) and one QUEUED job, observed at `now = 600000`
(10 minutes). -/
def c1StaleJob (i : Nat) : Job :=
  ⟨i, JobType.SCRAPE, JobStatus.RUNNING, (i : Int), some 0, none, none⟩

def c1Jobs : List Job :=
  (List.range 21).map c1StaleJob ++
    [⟨100, JobType.SCRAPE, JobStatus.QUEUED, 50, none, none, none⟩]

/-- C1 witness data: one stale RUNNING job and one QUEUED job. -/
def c1WitnessJobs : List Job :=
  [⟨0, JobType.SCRAPE, JobStatus.RUNNING, 0, some 0, none, none⟩,
   ⟨1, JobType.SCRAPE, JobStatus.QUEUED, 10, none, none, none⟩]

/-- C8 witness data: a QUEUED job with existing progress and cancel keys. -/
def c8State : StoreState :=
  ⟨[⟨5, JobType.SCRAPE, JobStatus.QUEUED, 0, none, none, none⟩],
   [(progressKey 5, SettingValue.plain "p"),
    (cancelKey 5, SettingValue.plain "true"),
    ("other", SettingValue.plain "v")]⟩

/-- C2 data: one cafe, two keywords, one search row per keyword. -/
def c2CafeEnv : CafeEnv :=
  ⟨"11", fun kw p =>
    if p = 1 then
      if kw = "a" then some [⟨true, 1, "a", 0, 0, 0, "L", "", some 1⟩]
      else if kw = "b" then some [⟨true, 2, "b", 0, 0, 0, "L", "", some 2⟩]
      else some []
    else some []⟩

def c2Env : RunEnv :=
  ⟨fun _ => c2CafeEnv, fun _ _ => none, fun _ => false, fun _ => true⟩

def c2Job : JobSpec :=
  ⟨["a", "b"], [], [], [], 1, none, none, none, none, false, 5⟩

/-- C2 witness data: the cancel flag turns true after the first read. -/
def c2CancelEnv : RunEnv :=
  ⟨fun _ => c2CafeEnv, fun _ _ => none, fun n => decide (1 ≤ n),
   fun _ => true⟩

/-- C6 counterexample data: the search API holds two full pages (20 rows
each) of distinct articles for the keyword. -/
def c6Row (i : Nat) : SearchRow :=
  ⟨true, i + 1, "", 3, 0, 0, "L", "", some (i : Int)⟩

def c6CafeEnv : CafeEnv :=
  ⟨"123", fun _ p =>
    if p = 1 then some ((List.range 20).map c6Row)
    else if p = 2 then some ((List.range 20).map fun i => c6Row (i + 20))
    else some []⟩

/-- C7 witness data: one candidate whose extraction succeeds and whose
text contains the keyword. -/
def c7CafeEnv : CafeEnv :=
  ⟨"9", fun _ p =>
    if p = 1 then some [⟨true, 7, "kw", 3, 4, 5, "L", "", some 9⟩]
    else some []⟩

def c7Env : RunEnv :=
  ⟨fun _ => c7CafeEnv,
   fun _ c =>
     if c.articleId = 7 then some ⟨"u", "t", "kw body", none, 0, 0, 0⟩
     else none,
   fun _ => false, fun _ => true⟩

def c7Job : JobSpec :=
  ⟨["kw"], [], [], [], 1, none, none, none, none, false, 5⟩

/-- C9 data: two accepted posts with view counts 10 and 20 under
`useAutoFilter`, so the clamp drops the first one after both were already
flushed to the sheet sink. -/
def c9CafeEnv : CafeEnv :=
  ⟨"3", fun _ p =>
    if p = 1 then
      some [⟨true, 1, "k1", 10, 0, 1, "L", "", some 2⟩,
            ⟨true, 2, "k2", 20, 0, 1, "L", "", some 1⟩]
    else some []⟩

def c9Env : RunEnv :=
  ⟨fun _ => c9CafeEnv,
   fun _ c =>
     if c.articleId = 1 then some ⟨"u1", "tt1", "k one", none, 10, 1, 0⟩
     else some ⟨"u2", "tt2", "k two", none, 20, 1, 0⟩,
   fun _ => false, fun _ => true⟩

def c9Job : JobSpec :=
  ⟨["k"], [], [], [], 1, none, none, none, none, true, 5⟩

/-- C5 witness data: five posts with view counts 10..50. -/
def c5Posts : List ParsedPost :=
  [10, 20, 30, 40, 50].map fun v => ⟨"u", "tt", "x", none, v, 0, 0⟩

/-- C10 data: one cafe, one keyword, a single candidate whose `addedAt`
failed to parse, and a job with a date range set. -/
def c10CafeEnv : CafeEnv :=
  ⟨"77", fun _ p =>
    if p = 1 then some [⟨true, 1, "k", 3, 1, 1, "L", "", none⟩] else some []⟩

def c10Env : RunEnv :=
  ⟨fun _ => c10CafeEnv,
   fun _ c => if c.articleId = 1 then
       some ⟨"u", "tt", "k body", none, 9, 1, 1⟩
     else none,
   fun _ => false,
   fun _ => true⟩

def c10Job : JobSpec :=
  ⟨["k"], [], [], [], 1, some 100, some 200, none, none, false, 5⟩

/-! ## General lemmas about the insert loop -/

theorem saveStep_store_length (hash : String → String) (store : List StoredPost)
    (p : ParsedPost) :
    (saveStep hash store p).1.length ≤ store.length + 1 := by
  by_cases hs : isSameAsExisting hash store p <;> simp [saveStep, hs]

/-- Characterization of the skip condition of the insert loop. -/
theorem isSameAsExisting_iff (hash : String → String) (store : List StoredPost)
    (p : ParsedPost) :
    isSameAsExisting hash store p = true ↔
      (∃ row ∈ store, row.contentHash = hash (hashInput p)) ∨
      (∃ row, store.find? (fun r => r.sourceUrl = p.sourceUrl) = some row ∧
        row.contentHash = hash (hashInput p)) := by
  unfold isSameAsExisting
  rcases hfind : store.find? (fun r => r.sourceUrl = p.sourceUrl) with _ | row <;>
    simp [hfind, List.any_eq_true]

theorem savePosts_count_le (hash : String → String) (store : List StoredPost)
    (l : List ParsedPost) : (savePosts hash store l).2 ≤ l.length := by
  induction l generalizing store with
  | nil => simp [savePosts]
  | cons p rest ih =>
    have h := ih (saveStep hash store p).1
    by_cases hb : (saveStep hash store p).2 <;> simp [savePosts, hb] <;> omega

theorem savePosts_store_length (hash : String → String) (store : List StoredPost)
    (l : List ParsedPost) :
    (savePosts hash store l).1.length ≤ store.length + l.length := by
  induction l generalizing store with
  | nil => simp [savePosts]
  | cons p rest ih =>
    have h1 := ih (saveStep hash store p).1
    have h2 := saveStep_store_length hash store p
    simp only [savePosts, List.length_cons]
    omega

/-! ## C3 -/

/-- C3: for every job with `maxPosts = N`, at most `N` posts are persisted
in one run: `finalPosts` is the clamp output truncated to `maxPosts`, taken
before the DB insert loop; consequently at most `maxPosts` rows are
inserted and `resultCount ≤ maxPosts`. -/
theorem C3_maxPosts_cap (env : RunEnv) (hash : String → String)
    (store : List StoredPost) (job : JobSpec) :
    (runScrapeJob env hash store job).finalPosts.length ≤ job.maxPosts ∧
    (runScrapeJob env hash store job).resultCount ≤ job.maxPosts ∧
    (runScrapeJob env hash store job).store.length ≤
      store.length + job.maxPosts ∧
    ((runScrapeJob env hash store job).status = JobStatus.SUCCESS →
      (runScrapeJob env hash store job).finalPosts =
        (clampByAutoThreshold (runScrapeJob env hash store job).collected
          job.useAutoFilter job.minViewCount job.minCommentCount).take
          job.maxPosts) := by
  cases h : runCafesGo env job (List.range job.cafeCount) ⟨[], 0, 0, 0, []⟩ with
  | cancelled st => simp [runScrapeJob, h]
  | done st =>
    set final := (clampByAutoThreshold st.collected job.useAutoFilter
      job.minViewCount job.minCommentCount).take job.maxPosts with hfinal
    have hlen : final.length ≤ job.maxPosts := List.length_take_le _ _
    have hcount := savePosts_count_le hash store final
    have hstore := savePosts_store_length hash store final
    refine ⟨?_, ?_, ?_, ?_⟩ <;> simp [runScrapeJob, h, ← hfinal] <;> omega

/-! ## C4 -/

/-- C4: a final post is hashed over `sourceUrl`, a newline, and
`contentText`; its DB insert is skipped exactly when that hash matches a
previously stored row or the first previously stored row with the same
source URL carries the identical hash; with the same URL but a hash that
matches no stored row it is inserted as a new row; and sheet-sink delivery
is independent of the post store (so a duplicate remains eligible for sink
delivery). The digest itself (module `src/lib/scrape/hash`) is a parameter. -/
theorem C4_dedup (hash : String → String) (store : List StoredPost)
    (p : ParsedPost) (env : RunEnv) (job : JobSpec)
    (store2 : List StoredPost) :
    ((saveStep hash store p).2 = false ↔
      (∃ row ∈ store,
        row.contentHash = hash (p.sourceUrl ++ "\n" ++ p.contentText)) ∨
      (∃ row, store.find? (fun r => r.sourceUrl = p.sourceUrl) = some row ∧
        row.contentHash = hash (p.sourceUrl ++ "\n" ++ p.contentText))) ∧
    ((saveStep hash store p).2 = true →
      (saveStep hash store p).1 = store ++
        [⟨p.sourceUrl, hash (p.sourceUrl ++ "\n" ++ p.contentText)⟩]) ∧
    ((∀ row ∈ store,
        row.contentHash ≠ hash (p.sourceUrl ++ "\n" ++ p.contentText)) →
      (saveStep hash store p).2 = true) ∧
    (runScrapeJob env hash store job).sheetSynced =
      (runScrapeJob env hash store2 job).sheetSynced := by
  have hsink : (runScrapeJob env hash store job).sheetSynced =
      (runScrapeJob env hash store2 job).sheetSynced := by
    cases h : runCafesGo env job (List.range job.cafeCount) ⟨[], 0, 0, 0, []⟩ <;>
      simp [runScrapeJob, h]
  have hchar := isSameAsExisting_iff hash store p
  rw [hashInput] at hchar
  refine ⟨?_, ?_, ?_, hsink⟩
  · by_cases hs : isSameAsExisting hash store p
    · simp only [saveStep, hs, if_true]
      simpa [hs] using hchar
    · simp only [saveStep, hs, if_false, Bool.false_eq_true]
      simp only [hs, Bool.false_eq_true, false_iff] at hchar
      simpa using hchar
  · intro hins
    by_cases hs : isSameAsExisting hash store p
    · simp [saveStep, hs] at hins
    · simp [saveStep, hs, hashInput]
  · intro hnone
    by_cases hs : isSameAsExisting hash store p
    · exfalso
      rcases hchar.mp hs with ⟨row, hmem, hrow⟩ | ⟨row, hfind, hrow⟩
      · exact hnone row hmem hrow
      · exact hnone row (List.mem_of_find?_eq_some hfind) hrow
    · simp [saveStep, hs]

/-! ## C5 -/

/-- C5: with `useAutoFilter` on and no explicit minimum, the effective
minimum view count is the sorted batch's middle element; for batch view
counts `[10, 20, 30, 40, 50]` that is the median 30, and every post
surviving the clamp has `viewCount ≥ 30`. -/
theorem C5_auto_median (posts : List ParsedPost) (mc : Option Int)
    (hviews : (posts.map (·.viewCount)).Perm [10, 20, 30, 40, 50]) :
    appliedMin true none (posts.map (·.viewCount)) = some 30 ∧
    ∀ p ∈ clampByAutoThreshold posts true none mc, 30 ≤ p.viewCount := by
  have hsorted : sortCountsAsc (posts.map (·.viewCount)) = [10, 20, 30, 40, 50] := by
    apply List.eq_of_perm_of_sorted (r := (· ≤ ·))
    · exact (List.perm_insertionSort _ _).trans hviews
    · exact List.sorted_insertionSort _ _
    · decide
  have hplen : posts.length = 5 := by
    have := hviews.length_eq
    simpa using this
  have hmin : appliedMin true none (posts.map (·.viewCount)) = some 30 := by
    simp only [appliedMin, if_true]
    rw [hsorted]
    simp [hplen]
  refine ⟨hmin, ?_⟩
  intro p hp
  unfold clampByAutoThreshold at hp
  simp only [Bool.not_true, Bool.false_and, if_false] at hp
  rw [hmin] at hp
  rcases List.mem_filter.mp hp with ⟨-, hcond⟩
  simp only [Bool.and_eq_true] at hcond
  have h1 := hcond.1
  simp only [Bool.not_eq_true', decide_eq_false_iff_not, not_lt] at h1
  exact_mod_cast h1

/-! ## C10 -/

/-- C10: the `[fromDate, toDate]` filter in keyword mode only fires when the
candidate's `addedAt` parsed: a `none` `addedAt` always bypasses the date
gate, while a parsed `addedAt` outside the range skips the candidate; in the
concrete run `c10Env`/`c10Job` the only candidate has `addedAt = none` and a
date range is configured, yet it is parsed and collected. -/
theorem C10_date_gate (job : JobSpec) (cand : ArticleCandidate) :
    (cand.addedAt = none → dateSkip job cand = false) ∧
    (∀ f a, job.fromDate = some f → cand.addedAt = some a → a < f →
      dateSkip job cand = true) ∧
    (∀ t a, job.toDate = some t → cand.addedAt = some a → t < a →
      dateSkip job cand = true) ∧
    (runScrapeJob c10Env (fun s => s) [] c10Job).collected.length = 1 ∧
    RunEvent.parseAttempt 1 ∈ (runScrapeJob c10Env (fun s => s) [] c10Job).trace := by
  refine ⟨?_, ?_, ?_, by decide, by decide⟩
  · intro h
    simp [dateSkip, h]
  · intro f a hf ha hlt
    simp [dateSkip, hf, ha, hlt]
  · intro t a ht ha hlt
    simp [dateSkip, ht, ha, hlt]

/-- Witness for C10 at a concrete candidate with a parsed out-of-range date:
the gate skips it, and the gate bypass for `none` holds as well. -/
theorem C10_date_gate_witness :
    ((⟨7, "u", "s", 0, 0, 0, "L", "", none, "k"⟩ : ArticleCandidate).addedAt = none →
      dateSkip c10Job ⟨7, "u", "s", 0, 0, 0, "L", "", none, "k"⟩ = false) ∧
    (∀ f a, c10Job.fromDate = some f →
      (⟨7, "u", "s", 0, 0, 0, "L", "", none, "k"⟩ : ArticleCandidate).addedAt = some a →
      a < f → dateSkip c10Job ⟨7, "u", "s", 0, 0, 0, "L", "", none, "k"⟩ = true) ∧
    (∀ t a, c10Job.toDate = some t →
      (⟨7, "u", "s", 0, 0, 0, "L", "", none, "k"⟩ : ArticleCandidate).addedAt = some a →
      t < a → dateSkip c10Job ⟨7, "u", "s", 0, 0, 0, "L", "", none, "k"⟩ = true) ∧
    (runScrapeJob c10Env (fun s => s) [] c10Job).collected.length = 1 ∧
    RunEvent.parseAttempt 1 ∈ (runScrapeJob c10Env (fun s => s) [] c10Job).trace :=
  C10_date_gate c10Job ⟨7, "u", "s", 0, 0, 0, "L", "", none, "k"⟩

/-! ## C6 -/

theorem fetchGo_requests_le (env : CafeEnv) (keyword : String) (first : Nat) :
    ∀ rem t, (fetchGo env keyword first rem t).1.length ≤ rem := by
  intro rem
  induction rem with
  | zero => intro t; simp [fetchGo]
  | succ n ih =>
    intro t
    cases h : env.pages keyword t with
    | none => simp [fetchGo, h]
    | some list =>
      by_cases hl : list.isEmpty
      · simp [fetchGo, h, hl]
      · simp only [fetchGo, h, hl, Bool.false_eq_true, if_false,
          List.length_cons]
        have := ih (t + 1)
        omega

/-- The dedup invariant of the per-keyword candidate loop: every kept
candidate's id is in `seen`, and the kept ids are pairwise distinct. -/
theorem collectKeywordRows_inv (excl : List String) (maxUrls : Nat) :
    ∀ (rows : List ArticleCandidate) (acc : CollectAcc),
      (∀ c ∈ acc.candidates, c.articleId ∈ acc.seen) →
      (acc.candidates.map (·.articleId)).Nodup →
      (∀ c ∈ (collectKeywordRows excl maxUrls rows acc).candidates,
         c.articleId ∈ (collectKeywordRows excl maxUrls rows acc).seen) ∧
      ((collectKeywordRows excl maxUrls rows acc).candidates.map
        (·.articleId)).Nodup := by
  intro rows
  induction rows with
  | nil => intro acc h1 h2; exact ⟨h1, h2⟩
  | cons row rest ih =>
    intro acc h1 h2
    by_cases hexcl : isExcludedBoard row excl
    · simpa [collectKeywordRows, hexcl] using ih acc h1 h2
    · by_cases hseen : row.articleId ∈ acc.seen
      · simpa [collectKeywordRows, hexcl, hseen] using ih acc h1 h2
      · have hnotin : row.articleId ∉ acc.candidates.map (·.articleId) := by
          intro hmem
          rcases List.mem_map.mp hmem with ⟨c, hc, hcid⟩
          exact hseen (hcid ▸ h1 c hc)
        have hstep :
            collectKeywordRows excl maxUrls (row :: rest) acc =
              collectKeywordRows excl maxUrls rest
                { seen := acc.seen ++ [row.articleId]
                  candidates :=
                    if acc.candidates.length < maxUrls then
                      acc.candidates ++ [row]
                    else acc.candidates } := by
          simp [collectKeywordRows, hexcl, hseen]
        rw [hstep]
        by_cases hcap : acc.candidates.length < maxUrls
        · apply ih
          · intro c hc
            simp only [hcap, if_true] at hc
            rcases List.mem_append.mp hc with hc | hc
            · exact List.mem_append_left _ (h1 c hc)
            · simp only [List.mem_singleton] at hc
              subst hc
              exact List.mem_append_right _ (by simp)
          · simp only [hcap, if_true, List.map_append, List.map_cons,
              List.map_nil]
            rw [List.nodup_append]
            exact ⟨h2, List.nodup_singleton _, by
              intro a ha hb
              simp only [List.mem_singleton] at hb
              exact hnotin (hb ▸ ha)⟩
        · apply ih
          · intro c hc
            simp only [hcap, if_false] at hc
            exact List.mem_append_left _ (h1 c hc)
          · simpa [hcap] using h2

/-- Single-keyword collector: the requests issued. -/
theorem collect_requests_single (env : CafeEnv) (excl : List String)
    (kw : String) (maxUrls : Nat) :
    (collectArticleCandidates env [kw] excl maxUrls).1 =
      (fetchCandidatesFromSearchApi env kw 1
        (min 6 ((max 1 maxUrls + 19) / 20))).1.map (fun p => (kw, p)) := by
  simp [collectArticleCandidates, collectStep]

/-- Single-keyword collector: the candidates returned. -/
theorem collect_cands_single (env : CafeEnv) (excl : List String)
    (kw : String) (maxUrls : Nat) :
    (collectArticleCandidates env [kw] excl maxUrls).2 =
      (sortByAddedAtDesc (collectKeywordRows excl maxUrls
        ((fetchCandidatesFromSearchApi env kw 1
            (min 6 ((max 1 maxUrls + 19) / 20))).2.take
          (max 1 (min (max 1 maxUrls)
            (fetchCandidatesFromSearchApi env kw 1
              (min 6 ((max 1 maxUrls + 19) / 20))).2.length)))
        ⟨[], []⟩).candidates).take maxUrls := by
  simp [collectArticleCandidates, collectStep]

/-- C6 as stated is false on the code: the search page size is fixed at 20
(not 50), and for `maxPosts = 5` the cafe budget passed by `run` is
`min(120, max(30, 6·5)) = 30`, so the collector requests two pages (the per
keyword take 30 exceeds one 20-row page) and may return up to 30
candidates. Here the API holds two full pages for "집중": two search page
requests are issued (not exactly one) and 30 candidates are returned (not
at most 5). -/
theorem C6_counterexample :
    (∃ l, c6CafeEnv.pages "집중" 1 = some l ∧ l.length = 20) ∧
    (collectArticleCandidates c6CafeEnv ["집중"] []
      (cafeCandidateCap 5)).1.length = 2 ∧
    (collectArticleCandidates c6CafeEnv ["집중"] []
      (cafeCandidateCap 5)).2.length = 30 := by
  refine ⟨⟨(List.range 20).map c6Row, by decide, by decide⟩, by decide,
    by decide⟩

/-- C6 amended: for keywords `["집중"]`, one cafe and `maxPosts = 5` the
collector (cafe budget `min(120, max(30, 6·maxPosts)) = 30`, page size 20,
`pagesToFetch = min(6, ceil(30/20)) = 2`) issues at most two search page
requests — exactly pages 1 and 2 when the first page is non-empty — and
returns at most 30 candidates, deduplicated by article id and sorted by
`addedAt` descending. -/
theorem C6_collector_budget (cafe : CafeEnv) (excl : List String) :
    ((∃ l, cafe.pages "집중" 1 = some l ∧ l ≠ []) →
      (collectArticleCandidates cafe ["집중"] excl (cafeCandidateCap 5)).1 =
        [("집중", 1), ("집중", 2)]) ∧
    (collectArticleCandidates cafe ["집중"] excl
      (cafeCandidateCap 5)).1.length ≤ 2 ∧
    (collectArticleCandidates cafe ["집중"] excl
      (cafeCandidateCap 5)).2.length ≤ 30 ∧
    ((collectArticleCandidates cafe ["집중"] excl
      (cafeCandidateCap 5)).2.map (·.articleId)).Nodup ∧
    List.Pairwise (fun a b => candSortKey b ≤ candSortKey a)
      (collectArticleCandidates cafe ["집중"] excl (cafeCandidateCap 5)).2 := by
  have hcap : cafeCandidateCap 5 = 30 := by decide
  have hpages : min 6 ((max 1 30 + 19) / 20) = 2 := by decide
  have hreq := collect_requests_single cafe excl "집중" 30
  have hcands := collect_cands_single cafe excl "집중" 30
  rw [hpages] at hreq hcands
  have hinv := collectKeywordRows_inv excl 30
    ((fetchCandidatesFromSearchApi cafe "집중" 1 2).2.take
      (max 1 (min (max 1 30)
        (fetchCandidatesFromSearchApi cafe "집중" 1 2).2.length)))
    ⟨[], []⟩ (by simp) (by simp)
  refine ⟨?_, ?_, ?_, ?_, ?_⟩
  · rintro ⟨l, hl, hne⟩
    rw [hcap, hreq]
    have : (fetchCandidatesFromSearchApi cafe "집중" 1 2).1 = [1, 2] := by
      have hempty : l.isEmpty = false := by
        cases l with
        | nil => exact absurd rfl hne
        | cons a t => rfl
      simp only [fetchCandidatesFromSearchApi]
      have h2 : max 1 (min 8 2) = 2 := by decide
      rw [h2]
      cases h2p : cafe.pages "집중" 2 with
      | none => simp [fetchGo, hl, hempty, h2p]
      | some l2 =>
        by_cases hl2 : l2.isEmpty <;> simp [fetchGo, hl, hempty, h2p, hl2]
    rw [this]
    rfl
  · rw [hcap, hreq]
    have h2 : max 1 (min 8 (min 6 ((max 1 30 + 19) / 20))) = 2 := by decide
    have := fetchGo_requests_le cafe "집중" 1
      (max 1 (min 8 (min 6 ((max 1 30 + 19) / 20)))) 1
    rw [h2] at this
    simpa [fetchCandidatesFromSearchApi, h2] using this
  · rw [hcap, hcands]
    exact List.length_take_le _ _
  · rw [hcap, hcands]
    have hperm : sortByAddedAtDesc
        (collectKeywordRows excl 30
          ((fetchCandidatesFromSearchApi cafe "집중" 1 2).2.take
            (max 1 (min (max 1 30)
              (fetchCandidatesFromSearchApi cafe "집중" 1 2).2.length)))
          ⟨[], []⟩).candidates |>.Perm
        (collectKeywordRows excl 30
          ((fetchCandidatesFromSearchApi cafe "집중" 1 2).2.take
            (max 1 (min (max 1 30)
              (fetchCandidatesFromSearchApi cafe "집중" 1 2).2.length)))
          ⟨[], []⟩).candidates := List.perm_insertionSort _ _
    have hnodup : ((sortByAddedAtDesc
        (collectKeywordRows excl 30
          ((fetchCandidatesFromSearchApi cafe "집중" 1 2).2.take
            (max 1 (min (max 1 30)
              (fetchCandidatesFromSearchApi cafe "집중" 1 2).2.length)))
          ⟨[], []⟩).candidates).map (·.articleId)).Nodup :=
      ((hperm.map (·.articleId)).nodup_iff).mpr hinv.2
    rw [List.map_take]
    exact (List.take_sublist _ _).nodup hnodup
  · rw [hcap, hcands]
    haveI : IsTotal ArticleCandidate
        (fun a b => candSortKey b ≤ candSortKey a) :=
      ⟨fun a b => le_total (candSortKey b) (candSortKey a)⟩
    haveI : IsTrans ArticleCandidate
        (fun a b => candSortKey b ≤ candSortKey a) :=
      ⟨fun _ _ _ hab hbc => le_trans hbc hab⟩
    exact List.Pairwise.sublist (List.take_sublist _ _)
      (List.sorted_insertionSort _ _)

/-- Witness for the amended C6 at the concrete two-page search API. -/
theorem C6_collector_budget_witness :
    ((∃ l, c6CafeEnv.pages "집중" 1 = some l ∧ l ≠ []) →
      (collectArticleCandidates c6CafeEnv ["집중"] [] (cafeCandidateCap 5)).1 =
        [("집중", 1), ("집중", 2)]) ∧
    (collectArticleCandidates c6CafeEnv ["집중"] []
      (cafeCandidateCap 5)).1.length ≤ 2 ∧
    (collectArticleCandidates c6CafeEnv ["집중"] []
      (cafeCandidateCap 5)).2.length ≤ 30 ∧
    ((collectArticleCandidates c6CafeEnv ["집중"] []
      (cafeCandidateCap 5)).2.map (·.articleId)).Nodup ∧
    List.Pairwise (fun a b => candSortKey b ≤ candSortKey a)
      (collectArticleCandidates c6CafeEnv ["집중"] [] (cafeCandidateCap 5)).2 :=
  C6_collector_budget c6CafeEnv []

/-! ## C1 -/

theorem isStale_running {now : Int} {j : Job} (h : isStale now j = true) :
    j.status = JobStatus.RUNNING := by
  unfold isStale at h
  simp only [Bool.and_eq_true, decide_eq_true_eq] at h
  exact h.1.1

theorem mem_staleIds {now : Int} {jobs : List Job}
    (hfew : (jobs.filter (isStale now)).length ≤ 20)
    {j : Job} (hj : j ∈ jobs) (hstale : isStale now j = true) :
    j.id ∈ staleIdsOf now jobs := by
  unfold staleIdsOf
  rw [List.take_of_length_le hfew]
  exact List.mem_map_of_mem _ (List.mem_filter.mpr ⟨hj, hstale⟩)

theorem staleIds_sound {now : Int} {jobs : List Job} {i : Nat}
    (hi : i ∈ staleIdsOf now jobs) :
    ∃ s ∈ jobs, s.id = i ∧ isStale now s = true := by
  unfold staleIdsOf at hi
  rcases List.mem_map.mp hi with ⟨s, hs, rfl⟩
  rcases List.mem_filter.mp (List.take_subset _ _ hs) with ⟨hmem, hstale⟩
  exact ⟨s, hmem, rfl, hstale⟩

/-- Under distinct job ids, a job that is not RUNNING is untouched by the
stale scan. -/
theorem staleUpdate_fixes_nonrunning {now : Int} {jobs : List Job}
    (hnodup : (jobs.map (·.id)).Nodup) {k : Job} (hk : k ∈ jobs)
    (hkr : k.status ≠ JobStatus.RUNNING) :
    staleUpdate now (staleIdsOf now jobs) k = k := by
  unfold staleUpdate
  have hnot : k.id ∉ staleIdsOf now jobs := by
    intro hin
    rcases staleIds_sound hin with ⟨s, hs, hsid, hstale⟩
    have : s = k := List.inj_on_of_nodup_map hnodup hs hk hsid
    exact hkr (this ▸ isStale_running hstale)
  simp [hnot]

theorem pickOlder_some : ∀ (t : List Job) (b : Job),
    ∃ q, t.foldl pickOlder (some b) = some q := by
  intro t
  induction t with
  | nil => intro b; exact ⟨b, rfl⟩
  | cons a t ih =>
    intro b
    simp only [List.foldl_cons, pickOlder]
    by_cases h : a.createdAt < b.createdAt <;> simp [h] <;> apply ih

theorem pickOlder_mem : ∀ (t : List Job) (best : Option Job) (q : Job),
    t.foldl pickOlder best = some q → best = some q ∨ q ∈ t := by
  intro t
  induction t with
  | nil => intro best q h; exact Or.inl h
  | cons a t ih =>
    intro best q h
    simp only [List.foldl_cons] at h
    rcases best with _ | b
    · rcases ih (pickOlder none a) q h with h1 | h1
      · simp only [pickOlder] at h1
        exact Or.inr (by simp [Option.some_inj.mp h1])
      · exact Or.inr (List.mem_cons_of_mem _ h1)
    · simp only [pickOlder] at h
      by_cases hc : a.createdAt < b.createdAt
      · rw [if_pos hc] at h
        rcases ih (some a) q h with h1 | h1
        · exact Or.inr (by simp [Option.some_inj.mp h1])
        · exact Or.inr (List.mem_cons_of_mem _ h1)
      · rw [if_neg hc] at h
        rcases ih (some b) q h with h1 | h1
        · exact Or.inl h1
        · exact Or.inr (List.mem_cons_of_mem _ h1)

theorem findOldestQueued_eq_none_iff (jobs : List Job) :
    findOldestQueued jobs = none ↔
      jobs.filter (·.status = JobStatus.QUEUED) = [] := by
  unfold findOldestQueued
  cases h : jobs.filter (·.status = JobStatus.QUEUED) with
  | nil => simp
  | cons a t =>
    simp only [List.foldl_cons, pickOlder]
    rcases pickOlder_some t a with ⟨q, hq⟩
    simp [hq]

theorem findOldestQueued_mem {jobs : List Job} {q : Job}
    (h : findOldestQueued jobs = some q) :
    q ∈ jobs ∧ q.status = JobStatus.QUEUED := by
  unfold findOldestQueued at h
  rcases pickOlder_mem _ none q h with h1 | h1
  · exact absurd h1 (by simp)
  · rcases List.mem_filter.mp h1 with ⟨hmem, hst⟩
    simp only [decide_eq_true_eq] at hst
    exact ⟨hmem, hst⟩

/-- Filtering commutes with a map that fixes the matching elements and
preserves the predicate. -/
theorem filter_map_eq_filter {α : Type} (f : α → α) (p : α → Bool) :
    ∀ l : List α, (∀ x ∈ l, p (f x) = p x) →
      (∀ x ∈ l, p x = true → f x = x) →
      (l.map f).filter p = l.filter p := by
  intro l
  induction l with
  | nil => intro _ _; rfl
  | cons a t ih =>
    intro h1 h2
    have ha1 : p (f a) = p a := h1 a (by simp)
    simp only [List.map_cons, List.filter_cons, ha1]
    by_cases hp : p a = true
    · rw [hp, h2 a (by simp) hp]
      simp only [if_true]
      rw [ih (fun x hx => h1 x (by simp [hx]))
        (fun x hx => h2 x (by simp [hx]))]
    · simp only [Bool.not_eq_true] at hp
      rw [hp]
      simp only [Bool.false_eq_true, if_false]
      exact ih (fun x hx => h1 x (by simp [hx]))
        (fun x hx => h2 x (by simp [hx]))

/-- C1 as stated is false on the code: the stale scan is capped at 20 jobs
per tick (`take: 20`). With 21 stale RUNNING jobs (each started at time 0
with no progress since, observed 10 minutes later) the 21st stays RUNNING,
and because a RUNNING job remains, the tick returns busy instead of
selecting the oldest QUEUED job. -/
theorem C1_counterexample :
    (∃ k ∈ c1Jobs, k.id = 20 ∧ k.status = JobStatus.RUNNING ∧
      k.startedAt = some 0 ∧ k.completedAt = none ∧
      (0 : Int) < 600000 - staleMs) ∧
    (∃ q ∈ c1Jobs, q.status = JobStatus.QUEUED) ∧
    (∀ k ∈ (tick 600000 c1Jobs).1, k.id = 20 →
      k.status = JobStatus.RUNNING) ∧
    (tick 600000 c1Jobs).2 = TickOutcome.busy 1 := by decide

/-- C1 amended: a RUNNING job whose `startedAt` lies more than the 5-minute
staleness window in the past (which holds whenever it has made no progress
for more than 5 minutes, since progress happens only after start) and with
`completedAt` unset is failed by the next tick with the stale-timeout
message, provided the stale scan's cap of 20 is not exceeded; when
additionally every RUNNING job is stale (the single-flight case) and some
QUEUED job exists, the tick proceeds to select the oldest QUEUED job. -/
theorem C1_stale_recovery (now : Int) (jobs : List Job) (j : Job)
    (hmem : j ∈ jobs) (hrun : j.status = JobStatus.RUNNING)
    (hstart : ∃ t, j.startedAt = some t ∧ t < now - staleMs)
    (hdone : j.completedAt = none)
    (hfew : (jobs.filter (isStale now)).length ≤ 20)
    (hall : ∀ k ∈ jobs, k.status = JobStatus.RUNNING → isStale now k = true)
    (hnodup : (jobs.map (·.id)).Nodup)
    (hq : ∃ q ∈ jobs, q.status = JobStatus.QUEUED) :
    (∀ k ∈ (tick now jobs).1, k.id = j.id →
      k.status = JobStatus.FAILED ∧ k.errorMessage = some staleMessage) ∧
    (tick now jobs).2.selectedId = (findOldestQueued jobs).map (·.id) := by
  rcases hstart with ⟨t, ht, hlt⟩
  have hstale_j : isStale now j = true := by
    simp [isStale, hrun, ht, hdone, hlt]
  have hjid : j.id ∈ staleIdsOf now jobs := mem_staleIds hfew hmem hstale_j
  -- After the scan, no job is RUNNING.
  have hnorun : ∀ k ∈ clearStaleRunningJobs now jobs,
      k.status ≠ JobStatus.RUNNING := by
    intro k hk
    rcases List.mem_map.mp hk with ⟨j0, hj0, rfl⟩
    by_cases hid : j0.id ∈ staleIdsOf now jobs
    · simp [staleUpdate, hid]
    · simp only [staleUpdate, hid, if_false]
      intro hst
      exact hid (mem_staleIds hfew hj0 (hall j0 hj0 hst))
  have hcount : ((clearStaleRunningJobs now jobs).filter
      (·.status = JobStatus.RUNNING)).length = 0 := by
    rw [List.length_eq_zero, List.filter_eq_nil_iff]
    intro k hk
    simpa using hnorun k hk
  -- QUEUED jobs are untouched, so the QUEUED filter is unchanged.
  have hfiltereq : (clearStaleRunningJobs now jobs).filter
      (·.status = JobStatus.QUEUED) =
      jobs.filter (·.status = JobStatus.QUEUED) := by
    unfold clearStaleRunningJobs
    apply filter_map_eq_filter
    · intro x hx
      by_cases hxr : x.status = JobStatus.RUNNING
      · have hid : x.id ∈ staleIdsOf now jobs :=
          mem_staleIds hfew hx (hall x hx hxr)
        simp [staleUpdate, hid, hxr]
      · rw [staleUpdate_fixes_nonrunning hnodup hx hxr]
    · intro x hx hxq
      apply staleUpdate_fixes_nonrunning hnodup hx
      simp only [decide_eq_true_eq] at hxq
      simp [hxq]
  have hfind : findOldestQueued (clearStaleRunningJobs now jobs) =
      findOldestQueued jobs := by
    unfold findOldestQueued
    rw [hfiltereq]
  -- The stale job's record after the scan.
  have hfailed : ∀ k ∈ clearStaleRunningJobs now jobs, k.id = j.id →
      k.status = JobStatus.FAILED ∧ k.errorMessage = some staleMessage := by
    intro k hk hkid
    rcases List.mem_map.mp hk with ⟨j0, hj0, rfl⟩
    by_cases hid : j0.id ∈ staleIdsOf now jobs
    · simp [staleUpdate, hid]
    · exfalso
      apply hid
      have : j0.id = j.id := by
        simpa [staleUpdate, hid] using hkid
      exact this ▸ hjid
  -- The selected job cannot be the stale one.
  have hnotsel : ∀ q : Job,
      findOldestQueued (clearStaleRunningJobs now jobs) = some q →
      q.id ≠ j.id := by
    intro q hqfind hqid
    rcases findOldestQueued_mem hqfind with ⟨hqmem, hqst⟩
    have := (hfailed q hqmem hqid).1
    rw [this] at hqst
    exact JobStatus.noConfusion hqst
  -- Evaluate the tick.
  simp only [tick]
  rw [hcount, if_neg (by omega : ¬ (0 : Nat) < 0)]
  cases hqfind : findOldestQueued (clearStaleRunningJobs now jobs) with
  | none =>
    exfalso
    rcases hq with ⟨q0, hq0, hq0st⟩
    have : jobs.filter (·.status = JobStatus.QUEUED) = [] := by
      rw [← hfiltereq]
      exact (findOldestQueued_eq_none_iff _).mp hqfind
    have : q0 ∈ jobs.filter (·.status = JobStatus.QUEUED) :=
      List.mem_filter.mpr ⟨hq0, by simp [hq0st]⟩
    simp_all
  | some q =>
    by_cases hty : q.jobType = JobType.REFRESH_CAFES
    · simp only [hty, if_true]
      refine ⟨?_, by simp [TickOutcome.selectedId, ← hfind, hqfind]⟩
      intro k hk hkid
      rcases List.mem_map.mp hk with ⟨k0, hk0, rfl⟩
      by_cases hk0q : k0.id = q.id
      · exfalso
        apply hnotsel q hqfind
        rw [← hk0q]
        simpa [hk0q] using hkid
      · simp only [hk0q, if_false] at hkid ⊢
        exact hfailed k0 hk0 hkid
    · simp only [hty, if_false]
      exact ⟨hfailed, by simp [TickOutcome.selectedId, ← hfind, hqfind]⟩

/-- Witness for the amended C1: one stale RUNNING job (id 0) and one QUEUED
job (id 1); the tick fails the stale job and selects the QUEUED one. -/
theorem C1_stale_recovery_witness :
    (∀ k ∈ (tick 600000 c1WitnessJobs).1, k.id = 0 →
      k.status = JobStatus.FAILED ∧ k.errorMessage = some staleMessage) ∧
    (tick 600000 c1WitnessJobs).2.selectedId =
      (findOldestQueued c1WitnessJobs).map (·.id) := by
  have := C1_stale_recovery 600000 c1WitnessJobs
    ⟨0, JobType.SCRAPE, JobStatus.RUNNING, 0, some 0, none, none⟩
    (by decide) (by decide) ⟨0, rfl, by decide⟩ (by decide) (by decide)
    (by decide) (by decide)
    ⟨⟨1, JobType.SCRAPE, JobStatus.QUEUED, 10, none, none, none⟩,
      by decide, by decide⟩
  exact this

/-! ## C8 -/

/-- C8: a cancel request for a QUEUED job sets it directly to CANCELLED —
the only status the route ever writes for it is CANCELLED, so it never
passes through RUNNING — and deletes both the progress-snapshot key and the
cancel-flag key, leaving neither key in the settings store. -/
theorem C8_cancel_queued (now : Int) (st : StoreState) (id : Nat) (job : Job)
    (hfind : st.jobs.find? (·.id = id) = some job)
    (hq : job.status = JobStatus.QUEUED) :
    (∀ j ∈ (cancelRoutePost now true st id).1.jobs, j.id = id →
      j.status = JobStatus.CANCELLED ∧
      j.errorMessage = some "cancelled by user (queued)" ∧
      j.completedAt = some now) ∧
    (∀ kv ∈ (cancelRoutePost now true st id).1.settings,
      kv.1 ≠ progressKey id ∧ kv.1 ≠ cancelKey id) ∧
    (cancelRoutePost now true st id).2.1 = CancelResponse.cancelledQueued ∧
    (cancelRoutePost now true st id).2.2 = [JobStatus.CANCELLED] := by
  have hroute : cancelRoutePost now true st id =
      (settingDeleteMany
        { st with jobs := st.jobs.map fun j =>
            if j.id = id then
              { j with
                  status := JobStatus.CANCELLED
                  completedAt := some now
                  errorMessage := some "cancelled by user (queued)" }
            else j }
        [progressKey id, cancelKey id],
       CancelResponse.cancelledQueued, [JobStatus.CANCELLED]) := by
    simp [cancelRoutePost, hfind, hq]
  rw [hroute]
  refine ⟨?_, ?_, rfl, rfl⟩
  · intro jj hjj hjid
    simp only [settingDeleteMany] at hjj
    rcases List.mem_map.mp hjj with ⟨j0, _, rfl⟩
    by_cases h0 : j0.id = id
    · simp [h0]
    · simp [h0] at hjid
  · intro kv hkv
    simp only [settingDeleteMany] at hkv
    have h := (List.mem_filter.mp hkv).2
    simp only [List.mem_cons, List.mem_singleton, decide_eq_true_eq] at h
    push_neg at h
    simpa using h

/-- Witness for C8 at a concrete store holding a QUEUED job (id 5) together
with its progress and cancel keys. -/
theorem C8_cancel_queued_witness :
    (∀ j ∈ (cancelRoutePost 42 true c8State 5).1.jobs, j.id = 5 →
      j.status = JobStatus.CANCELLED ∧
      j.errorMessage = some "cancelled by user (queued)" ∧
      j.completedAt = some 42) ∧
    (∀ kv ∈ (cancelRoutePost 42 true c8State 5).1.settings,
      kv.1 ≠ progressKey 5 ∧ kv.1 ≠ cancelKey 5) ∧
    (cancelRoutePost 42 true c8State 5).2.1 =
      CancelResponse.cancelledQueued ∧
    (cancelRoutePost 42 true c8State 5).2.2 = [JobStatus.CANCELLED] :=
  C8_cancel_queued 42 c8State 5
    ⟨5, JobType.SCRAPE, JobStatus.QUEUED, 0, none, none, none⟩
    (by decide) (by decide)

/-! ## C2 -/

theorem mem_of_getLast? {α : Type} {l : List α} {a : α}
    (h : l.getLast? = some a) : a ∈ l := by
  induction l with
  | nil => simp at h
  | cons b t ih =>
    cases t with
    | nil => simp_all
    | cons c u =>
      rw [List.getLast?_cons_cons] at h
      exact List.mem_cons_of_mem _ (ih h)

/-- Candidate-loop invariant for the cancellation protocol: the parse-scan
and cafe-scan stay satisfied, a normally-finished loop has read no true
cancel flag, and a cancelled loop ends exactly at the true read. -/
theorem runCandLoop_c2 (env : RunEnv) (job : JobSpec) (i : Nat) :
    ∀ (cands : List ArticleCandidate) (attempts : Nat) (st : RunState),
      (st.trace.foldl parseCheckStep (true, false)).1 = true →
      (st.trace.foldl cafeCheckStep (true, false)).1 = true →
      RunEvent.cancelCheck true ∉ st.trace →
      (((runCandLoop env job i cands attempts st).state.trace.foldl
          parseCheckStep (true, false)).1 = true) ∧
      (((runCandLoop env job i cands attempts st).state.trace.foldl
          cafeCheckStep (true, false)).1 = true) ∧
      (∀ st2, runCandLoop env job i cands attempts st = StepRes.done st2 →
        RunEvent.cancelCheck true ∉ st2.trace) ∧
      (∀ st2, runCandLoop env job i cands attempts st =
          StepRes.cancelled st2 →
        st2.trace.getLast? = some (RunEvent.cancelCheck true)) := by
  intro cands
  induction cands with
  | nil =>
    intro attempts st h1 h2 h3
    refine ⟨h1, h2, ?_, ?_⟩
    · intro st2 heq
      rw [show runCandLoop env job i [] attempts st = StepRes.done st
        from rfl] at heq
      cases heq
      exact h3
    · intro st2 heq
      rw [show runCandLoop env job i [] attempts st = StepRes.done st
        from rfl] at heq
      cases heq
  | cons cand rest ih =>
    intro attempts st h1 h2 h3
    by_cases hcv : env.cancel st.checks = true
    · have hres : runCandLoop env job i (cand :: rest) attempts st =
          StepRes.cancelled
            { st with
                checks := st.checks + 1
                trace := st.trace ++ [RunEvent.cancelCheck true] } := by
        simp [runCandLoop, checkCancel, hcv]
      rw [hres]
      refine ⟨?_, ?_, ?_, ?_⟩
      · simpa [StepRes.state, List.foldl_append, parseCheckStep] using h1
      · simpa [StepRes.state, List.foldl_append, cafeCheckStep] using h2
      · intro st2 heq
        cases heq
      · intro st2 heq
        cases heq
        simp [List.getLast?_append]
    · have hcv' : env.cancel st.checks = false := by simpa using hcv
      have pA1 : ((st.trace ++ [RunEvent.cancelCheck false]).foldl
          parseCheckStep (true, false)).1 = true := by
        simpa [List.foldl_append, parseCheckStep] using h1
      have pA2 : ((st.trace ++ [RunEvent.cancelCheck false]).foldl
          cafeCheckStep (true, false)).1 = true := by
        simpa [List.foldl_append, cafeCheckStep] using h2
      have pA3 : RunEvent.cancelCheck true ∉
          st.trace ++ [RunEvent.cancelCheck false] := by
        intro hmem
        rcases List.mem_append.mp hmem with h | h
        · exact h3 h
        · simp at h
      have pB1 : ((st.trace ++ [RunEvent.cancelCheck false] ++
          [RunEvent.parseAttempt cand.articleId]).foldl
          parseCheckStep (true, false)).1 = true := by
        simpa [List.foldl_append, parseCheckStep] using h1
      have pB2 : ((st.trace ++ [RunEvent.cancelCheck false] ++
          [RunEvent.parseAttempt cand.articleId]).foldl
          cafeCheckStep (true, false)).1 = true := by
        simpa [List.foldl_append, cafeCheckStep] using h2
      have pB3 : RunEvent.cancelCheck true ∉
          st.trace ++ [RunEvent.cancelCheck false] ++
            [RunEvent.parseAttempt cand.articleId] := by
        intro hmem
        rcases List.mem_append.mp hmem with h | h
        · exact pA3 h
        · simp at h
      have pC1 : ((st.trace ++ [RunEvent.cancelCheck false] ++
          [RunEvent.parseAttempt cand.articleId] ++
          [RunEvent.sheetFlush 1]).foldl
          parseCheckStep (true, false)).1 = true := by
        simpa [List.foldl_append, parseCheckStep] using h1
      have pC2 : ((st.trace ++ [RunEvent.cancelCheck false] ++
          [RunEvent.parseAttempt cand.articleId] ++
          [RunEvent.sheetFlush 1]).foldl
          cafeCheckStep (true, false)).1 = true := by
        simpa [List.foldl_append, cafeCheckStep] using h2
      have pC3 : RunEvent.cancelCheck true ∉
          st.trace ++ [RunEvent.cancelCheck false] ++
            [RunEvent.parseAttempt cand.articleId] ++
            [RunEvent.sheetFlush 1] := by
        intro hmem
        rcases List.mem_append.mp hmem with h | h
        · exact pB3 h
        · simp at h
      by_cases hmax : job.maxPosts ≤ st.collected.length
      · have hres : runCandLoop env job i (cand :: rest) attempts st =
            StepRes.done
              { st with
                  checks := st.checks + 1
                  trace := st.trace ++ [RunEvent.cancelCheck false] } := by
          simp [runCandLoop, checkCancel, hcv', hmax]
        rw [hres]
        exact ⟨pA1, pA2, fun st2 heq => by cases heq; exact pA3,
          fun st2 heq => by cases heq⟩
      · by_cases hbud : parseBudget job ≤ attempts
        · have hres : runCandLoop env job i (cand :: rest) attempts st =
              StepRes.done
                { st with
                    checks := st.checks + 1
                    trace := st.trace ++ [RunEvent.cancelCheck false] } := by
            simp [runCandLoop, checkCancel, hcv', hmax, hbud]
          rw [hres]
          exact ⟨pA1, pA2, fun st2 heq => by cases heq; exact pA3,
            fun st2 heq => by cases heq⟩
        · by_cases hdate : dateSkip job cand = true
          · have hres : runCandLoop env job i (cand :: rest) attempts st =
                runCandLoop env job i rest attempts
                  { st with
                      checks := st.checks + 1
                      trace := st.trace ++ [RunEvent.cancelCheck false] } := by
              simp [runCandLoop, checkCancel, hcv', hmax, hbud, hdate]
            rw [hres]
            exact ih attempts _ pA1 pA2 pA3
          · by_cases hcnt : countSkip job cand = true
            · have hres : runCandLoop env job i (cand :: rest) attempts st =
                  runCandLoop env job i rest attempts
                    { st with
                        checks := st.checks + 1
                        trace := st.trace ++ [RunEvent.cancelCheck false] } := by
                simp [runCandLoop, checkCancel, hcv', hmax, hbud, hdate, hcnt]
              rw [hres]
              exact ih attempts _ pA1 pA2 pA3
            · cases hp : env.parse i cand with
              | none =>
                have hres : runCandLoop env job i (cand :: rest) attempts st =
                    runCandLoop env job i rest (attempts + 1)
                      { st with
                          checks := st.checks + 1
                          trace := st.trace ++ [RunEvent.cancelCheck false] ++
                            [RunEvent.parseAttempt cand.articleId] } := by
                  simp [runCandLoop, checkCancel, hcv', hmax, hbud, hdate,
                    hcnt, hp]
                rw [hres]
                exact ih (attempts + 1) _ pB1 pB2 pB3
              | some parsed =>
                by_cases hkw : includesKeyword (combinedCheckText cand parsed)
                    cand.queryKeyword = true
                · by_cases hwords : isAllowedByWords
                      (combinedCheckText cand (applyCandBackfill cand parsed))
                      job.includeWords job.excludeWords = true
                  · have hres :
                        runCandLoop env job i (cand :: rest) attempts st =
                        runCandLoop env job i rest (attempts + 1)
                          { st with
                              checks := st.checks + 1
                              flushes := st.flushes + 1
                              synced := st.synced +
                                (if env.sheetOk st.flushes then 1 else 0)
                              collected := st.collected ++
                                [applyCandBackfill cand parsed]
                              trace := st.trace ++
                                [RunEvent.cancelCheck false] ++
                                [RunEvent.parseAttempt cand.articleId] ++
                                [RunEvent.sheetFlush 1] } := by
                      simp [runCandLoop, checkCancel, hcv', hmax, hbud,
                        hdate, hcnt, hp, hkw, hwords]
                    rw [hres]
                    exact ih (attempts + 1) _ pC1 pC2 pC3
                  · have hres :
                        runCandLoop env job i (cand :: rest) attempts st =
                        runCandLoop env job i rest (attempts + 1)
                          { st with
                              checks := st.checks + 1
                              trace := st.trace ++
                                [RunEvent.cancelCheck false] ++
                                [RunEvent.parseAttempt cand.articleId] } := by
                      simp [runCandLoop, checkCancel, hcv', hmax, hbud,
                        hdate, hcnt, hp, hkw, hwords]
                    rw [hres]
                    exact ih (attempts + 1) _ pB1 pB2 pB3
                · have hres :
                      runCandLoop env job i (cand :: rest) attempts st =
                      runCandLoop env job i rest (attempts + 1)
                        { st with
                            checks := st.checks + 1
                            trace := st.trace ++
                              [RunEvent.cancelCheck false] ++
                              [RunEvent.parseAttempt cand.articleId] } := by
                    simp [runCandLoop, checkCancel, hcv', hmax, hbud,
                      hdate, hcnt, hp, hkw]
                  rw [hres]
                  exact ih (attempts + 1) _ pB1 pB2 pB3

theorem parseScan_foldl_searches (l : List (String × Nat)) (s : Bool × Bool) :
    (l.map fun kp => RunEvent.searchRequest kp.1 kp.2).foldl
      parseCheckStep s = s := by
  induction l generalizing s with
  | nil => rfl
  | cons a t ih => simp [parseCheckStep, ih]

theorem cafeScan_foldl_searches (l : List (String × Nat)) (s : Bool × Bool) :
    ((l.map fun kp => RunEvent.searchRequest kp.1 kp.2).foldl
      cafeCheckStep s).1 = s.1 := by
  induction l generalizing s with
  | nil => rfl
  | cons a t ih => simp [cafeCheckStep, ih]

theorem searches_no_check (l : List (String × Nat)) :
    RunEvent.cancelCheck true ∉
      l.map fun kp => RunEvent.searchRequest kp.1 kp.2 := by
  intro hm
  rcases List.mem_map.mp hm with ⟨kp, _, hkp⟩
  simp at hkp

/-- Cafe-loop invariant for the cancellation protocol. -/
theorem runCafesGo_c2 (env : RunEnv) (job : JobSpec) :
    ∀ (idxs : List Nat) (st : RunState),
      (st.trace.foldl parseCheckStep (true, false)).1 = true →
      (st.trace.foldl cafeCheckStep (true, false)).1 = true →
      RunEvent.cancelCheck true ∉ st.trace →
      (((runCafesGo env job idxs st).state.trace.foldl
          parseCheckStep (true, false)).1 = true) ∧
      (((runCafesGo env job idxs st).state.trace.foldl
          cafeCheckStep (true, false)).1 = true) ∧
      (∀ st2, runCafesGo env job idxs st = StepRes.done st2 →
        RunEvent.cancelCheck true ∉ st2.trace) ∧
      (∀ st2, runCafesGo env job idxs st = StepRes.cancelled st2 →
        st2.trace.getLast? = some (RunEvent.cancelCheck true)) := by
  intro idxs
  induction idxs with
  | nil =>
    intro st h1 h2 h3
    refine ⟨h1, h2, ?_, ?_⟩
    · intro st2 heq
      rw [show runCafesGo env job [] st = StepRes.done st from rfl] at heq
      cases heq
      exact h3
    · intro st2 heq
      rw [show runCafesGo env job [] st = StepRes.done st from rfl] at heq
      cases heq
  | cons i rest ih =>
    intro st h1 h2 h3
    by_cases hcv : env.cancel st.checks = true
    · have hres : runCafesGo env job (i :: rest) st =
          StepRes.cancelled
            { st with
                checks := st.checks + 1
                trace := st.trace ++ [RunEvent.cancelCheck true] } := by
        simp [runCafesGo, checkCancel, hcv]
      rw [hres]
      refine ⟨?_, ?_, ?_, ?_⟩
      · simpa [StepRes.state, List.foldl_append, parseCheckStep] using h1
      · simpa [StepRes.state, List.foldl_append, cafeCheckStep] using h2
      · intro st2 heq
        cases heq
      · intro st2 heq
        cases heq
        simp [List.getLast?_append]
    · have hcv' : env.cancel st.checks = false := by simpa using hcv
      by_cases henough : job.maxPosts ≤ st.collected.length
      · -- search pass only, parse skipped, continue with next cafe
        have hres : runCafesGo env job (i :: rest) st =
            runCafesGo env job rest
              { st with
                  checks := st.checks + 1
                  trace := st.trace ++ [RunEvent.cancelCheck false] ++
                    [RunEvent.cafePass i] ++
                    ((collectArticleCandidates (env.cafe i) job.keywords
                      (job.excludeBoards.map normalizeBoardToken) 1).1.map
                      fun kp => RunEvent.searchRequest kp.1 kp.2) } := by
          simp [runCafesGo, checkCancel, hcv', henough]
        rw [hres]
        apply ih
        · simpa [List.foldl_append, parseCheckStep,
            parseScan_foldl_searches] using h1
        · simpa [List.foldl_append, cafeCheckStep,
            cafeScan_foldl_searches] using h2
        · intro hmem
          rcases List.mem_append.mp hmem with hm | hm
          · rcases List.mem_append.mp hm with hm2 | hm2
            · rcases List.mem_append.mp hm2 with hm3 | hm3
              · exact h3 hm3
              · simp at hm3
            · simp at hm2
          · exact searches_no_check _ hm
      · have hres : runCafesGo env job (i :: rest) st =
            (match runCandLoop env job i
                (collectArticleCandidates (env.cafe i) job.keywords
                  (job.excludeBoards.map normalizeBoardToken)
                  (cafeCandidateCap job.maxPosts)).2 0
                { st with
                    checks := st.checks + 1
                    trace := st.trace ++ [RunEvent.cancelCheck false] ++
                      [RunEvent.cafePass i] ++
                      ((collectArticleCandidates (env.cafe i) job.keywords
                        (job.excludeBoards.map normalizeBoardToken)
                        (cafeCandidateCap job.maxPosts)).1.map
                        fun kp => RunEvent.searchRequest kp.1 kp.2) } with
             | StepRes.cancelled st2 => StepRes.cancelled st2
             | StepRes.done st2 => runCafesGo env job rest st2) := by
          simp [runCafesGo, checkCancel, hcv', henough]
        have pS1 : ((st.trace ++ [RunEvent.cancelCheck false] ++
            [RunEvent.cafePass i] ++
            ((collectArticleCandidates (env.cafe i) job.keywords
              (job.excludeBoards.map normalizeBoardToken)
              (cafeCandidateCap job.maxPosts)).1.map
              fun kp => RunEvent.searchRequest kp.1 kp.2)).foldl
            parseCheckStep (true, false)).1 = true := by
          simpa [List.foldl_append, parseCheckStep,
            parseScan_foldl_searches] using h1
        have pS2 : ((st.trace ++ [RunEvent.cancelCheck false] ++
            [RunEvent.cafePass i] ++
            ((collectArticleCandidates (env.cafe i) job.keywords
              (job.excludeBoards.map normalizeBoardToken)
              (cafeCandidateCap job.maxPosts)).1.map
              fun kp => RunEvent.searchRequest kp.1 kp.2)).foldl
            cafeCheckStep (true, false)).1 = true := by
          simpa [List.foldl_append, cafeCheckStep,
            cafeScan_foldl_searches] using h2
        have pS3 : RunEvent.cancelCheck true ∉
            st.trace ++ [RunEvent.cancelCheck false] ++
            [RunEvent.cafePass i] ++
            ((collectArticleCandidates (env.cafe i) job.keywords
              (job.excludeBoards.map normalizeBoardToken)
              (cafeCandidateCap job.maxPosts)).1.map
              fun kp => RunEvent.searchRequest kp.1 kp.2) := by
          intro hmem
          rcases List.mem_append.mp hmem with hm | hm
          · rcases List.mem_append.mp hm with hm2 | hm2
            · rcases List.mem_append.mp hm2 with hm3 | hm3
              · exact h3 hm3
              · simp at hm3
            · simp at hm2
          · exact searches_no_check _ hm
        have hcand := runCandLoop_c2 env job i
          (collectArticleCandidates (env.cafe i) job.keywords
            (job.excludeBoards.map normalizeBoardToken)
            (cafeCandidateCap job.maxPosts)).2 0
          { st with
              checks := st.checks + 1
              trace := st.trace ++ [RunEvent.cancelCheck false] ++
                [RunEvent.cafePass i] ++
                ((collectArticleCandidates (env.cafe i) job.keywords
                  (job.excludeBoards.map normalizeBoardToken)
                  (cafeCandidateCap job.maxPosts)).1.map
                  fun kp => RunEvent.searchRequest kp.1 kp.2) }
          pS1 pS2 pS3
        rw [hres]
        cases hcl : runCandLoop env job i
            (collectArticleCandidates (env.cafe i) job.keywords
              (job.excludeBoards.map normalizeBoardToken)
              (cafeCandidateCap job.maxPosts)).2 0
            { st with
                checks := st.checks + 1
                trace := st.trace ++ [RunEvent.cancelCheck false] ++
                  [RunEvent.cafePass i] ++
                  ((collectArticleCandidates (env.cafe i) job.keywords
                    (job.excludeBoards.map normalizeBoardToken)
                    (cafeCandidateCap job.maxPosts)).1.map
                    fun kp => RunEvent.searchRequest kp.1 kp.2) } with
        | done st2 =>
          rw [hcl] at hcand
          exact ih st2 (by simpa [StepRes.state] using hcand.1)
            (by simpa [StepRes.state] using hcand.2.1)
            (hcand.2.2.1 st2 rfl)
        | cancelled st2 =>
          rw [hcl] at hcand
          have hlast := hcand.2.2.2 st2 rfl
          refine ⟨?_, ?_, ?_, ?_⟩
          · simpa [StepRes.state] using hcand.1
          · simpa [StepRes.state] using hcand.2.1
          · intro st3 heq
            cases heq
          · intro st3 heq
            cases heq
            exact hlast

theorem countP_flush_searches (l : List (String × Nat)) :
    l.countP (isFlushEvent ∘ fun kp => RunEvent.searchRequest kp.1 kp.2)
      = 0 := by
  induction l with
  | nil => rfl
  | cons a t ih => simp [List.countP_cons, isFlushEvent, Function.comp, ih]

/-- Candidate-loop invariant for acceptance provenance (C7) and for the
sheet-sink accounting (C9): every newly collected post is a backfilled,
keyword-gated parse result; with a healthy sink the synced counter tracks
the collected count; and the flush events track the collected count. -/
theorem runCandLoop_inv79 (env : RunEnv) (job : JobSpec) (i : Nat) :
    ∀ (cands : List ArticleCandidate) (attempts : Nat) (st : RunState),
      (∀ p ∈ (runCandLoop env job i cands attempts st).state.collected,
        p ∈ st.collected ∨ AcceptedOk env p) ∧
      ((∀ n, env.sheetOk n = true) →
        st.synced = st.collected.length →
        (runCandLoop env job i cands attempts st).state.synced =
          (runCandLoop env job i cands attempts st).state.collected.length) ∧
      (st.trace.countP isFlushEvent = st.collected.length →
        (runCandLoop env job i cands attempts st).state.trace.countP
            isFlushEvent =
          (runCandLoop env job i cands attempts st).state.collected.length) := by
  intro cands
  induction cands with
  | nil =>
    intro attempts st
    exact ⟨fun p hp => Or.inl hp, fun _ h => h, fun h => h⟩
  | cons cand rest ih =>
    intro attempts st
    by_cases hcv : env.cancel st.checks = true
    · have hres : runCandLoop env job i (cand :: rest) attempts st =
          StepRes.cancelled
            { st with
                checks := st.checks + 1
                trace := st.trace ++ [RunEvent.cancelCheck true] } := by
        simp [runCandLoop, checkCancel, hcv]
      rw [hres]
      refine ⟨fun p hp => Or.inl hp, fun _ h => h, fun h => ?_⟩
      simpa [StepRes.state, List.countP_append, List.countP_cons,
        isFlushEvent] using h
    · have hcv' : env.cancel st.checks = false := by simpa using hcv
      by_cases hmax : job.maxPosts ≤ st.collected.length
      · have hres : runCandLoop env job i (cand :: rest) attempts st =
            StepRes.done
              { st with
                  checks := st.checks + 1
                  trace := st.trace ++ [RunEvent.cancelCheck false] } := by
          simp [runCandLoop, checkCancel, hcv', hmax]
        rw [hres]
        refine ⟨fun p hp => Or.inl hp, fun _ h => h, fun h => ?_⟩
        simpa [StepRes.state, List.countP_append, List.countP_cons,
          isFlushEvent] using h
      · by_cases hbud : parseBudget job ≤ attempts
        · have hres : runCandLoop env job i (cand :: rest) attempts st =
              StepRes.done
                { st with
                    checks := st.checks + 1
                    trace := st.trace ++ [RunEvent.cancelCheck false] } := by
            simp [runCandLoop, checkCancel, hcv', hmax, hbud]
          rw [hres]
          refine ⟨fun p hp => Or.inl hp, fun _ h => h, fun h => ?_⟩
          simpa [StepRes.state, List.countP_append, List.countP_cons,
            isFlushEvent] using h
        · by_cases hdate : dateSkip job cand = true
          · have hres : runCandLoop env job i (cand :: rest) attempts st =
                runCandLoop env job i rest attempts
                  { st with
                      checks := st.checks + 1
                      trace := st.trace ++ [RunEvent.cancelCheck false] } := by
              simp [runCandLoop, checkCancel, hcv', hmax, hbud, hdate]
            rw [hres]
            refine ⟨(ih attempts _).1,
              fun hok h => by apply (ih attempts _).2.1 hok; exact h,
              fun h => (ih attempts _).2.2 ?_⟩
            simpa [List.countP_append, List.countP_cons, isFlushEvent] using h
          · by_cases hcnt : countSkip job cand = true
            · have hres : runCandLoop env job i (cand :: rest) attempts st =
                  runCandLoop env job i rest attempts
                    { st with
                        checks := st.checks + 1
                        trace := st.trace ++ [RunEvent.cancelCheck false] } := by
                simp [runCandLoop, checkCancel, hcv', hmax, hbud, hdate, hcnt]
              rw [hres]
              refine ⟨(ih attempts _).1,
              fun hok h => by apply (ih attempts _).2.1 hok; exact h,
                fun h => (ih attempts _).2.2 ?_⟩
              simpa [List.countP_append, List.countP_cons, isFlushEvent]
                using h
            · cases hp : env.parse i cand with
              | none =>
                have hres : runCandLoop env job i (cand :: rest) attempts st =
                    runCandLoop env job i rest (attempts + 1)
                      { st with
                          checks := st.checks + 1
                          trace := st.trace ++ [RunEvent.cancelCheck false] ++
                            [RunEvent.parseAttempt cand.articleId] } := by
                  simp [runCandLoop, checkCancel, hcv', hmax, hbud, hdate,
                    hcnt, hp]
                rw [hres]
                refine ⟨(ih (attempts + 1) _).1,
              fun hok h => by apply (ih (attempts + 1) _).2.1 hok; exact h,
                  fun h => (ih (attempts + 1) _).2.2 ?_⟩
                simpa [List.countP_append, List.countP_cons, isFlushEvent]
                  using h
              | some parsed =>
                by_cases hkw : includesKeyword (combinedCheckText cand parsed)
                    cand.queryKeyword = true
                · by_cases hwords : isAllowedByWords
                      (combinedCheckText cand (applyCandBackfill cand parsed))
                      job.includeWords job.excludeWords = true
                  · have hres :
                        runCandLoop env job i (cand :: rest) attempts st =
                        runCandLoop env job i rest (attempts + 1)
                          { st with
                              checks := st.checks + 1
                              flushes := st.flushes + 1
                              synced := st.synced +
                                (if env.sheetOk st.flushes then 1 else 0)
                              collected := st.collected ++
                                [applyCandBackfill cand parsed]
                              trace := st.trace ++
                                [RunEvent.cancelCheck false] ++
                                [RunEvent.parseAttempt cand.articleId] ++
                                [RunEvent.sheetFlush 1] } := by
                      simp [runCandLoop, checkCancel, hcv', hmax, hbud,
                        hdate, hcnt, hp, hkw, hwords]
                    rw [hres]
                    refine ⟨?_, ?_, ?_⟩
                    · intro p hq
                      rcases (ih (attempts + 1) _).1 p hq with hin | hacc
                      · rcases List.mem_append.mp hin with hin2 | hin2
                        · exact Or.inl hin2
                        · simp only [List.mem_singleton] at hin2
                          exact Or.inr ⟨i, cand, parsed, hp, hkw, hin2⟩
                      · exact Or.inr hacc
                    · intro hok h
                      apply (ih (attempts + 1) _).2.1 hok
                      simp [hok st.flushes, h]
                    · intro h
                      apply (ih (attempts + 1) _).2.2
                      simpa [List.countP_append, List.countP_cons,
                        isFlushEvent] using h
                  · have hres :
                        runCandLoop env job i (cand :: rest) attempts st =
                        runCandLoop env job i rest (attempts + 1)
                          { st with
                              checks := st.checks + 1
                              trace := st.trace ++
                                [RunEvent.cancelCheck false] ++
                                [RunEvent.parseAttempt cand.articleId] } := by
                      simp [runCandLoop, checkCancel, hcv', hmax, hbud,
                        hdate, hcnt, hp, hkw, hwords]
                    rw [hres]
                    refine ⟨(ih (attempts + 1) _).1,
              fun hok h => by apply (ih (attempts + 1) _).2.1 hok; exact h,
                      fun h => (ih (attempts + 1) _).2.2 ?_⟩
                    simpa [List.countP_append, List.countP_cons, isFlushEvent]
                      using h
                · have hres :
                      runCandLoop env job i (cand :: rest) attempts st =
                      runCandLoop env job i rest (attempts + 1)
                        { st with
                            checks := st.checks + 1
                            trace := st.trace ++
                              [RunEvent.cancelCheck false] ++
                              [RunEvent.parseAttempt cand.articleId] } := by
                    simp [runCandLoop, checkCancel, hcv', hmax, hbud,
                      hdate, hcnt, hp, hkw]
                  rw [hres]
                  refine ⟨(ih (attempts + 1) _).1,
              fun hok h => by apply (ih (attempts + 1) _).2.1 hok; exact h,
                    fun h => (ih (attempts + 1) _).2.2 ?_⟩
                  simpa [List.countP_append, List.countP_cons, isFlushEvent]
                    using h

/-- Cafe-loop version of `runCandLoop_inv79`. -/
theorem runCafesGo_inv79 (env : RunEnv) (job : JobSpec) :
    ∀ (idxs : List Nat) (st : RunState),
      (∀ p ∈ (runCafesGo env job idxs st).state.collected,
        p ∈ st.collected ∨ AcceptedOk env p) ∧
      ((∀ n, env.sheetOk n = true) →
        st.synced = st.collected.length →
        (runCafesGo env job idxs st).state.synced =
          (runCafesGo env job idxs st).state.collected.length) ∧
      (st.trace.countP isFlushEvent = st.collected.length →
        (runCafesGo env job idxs st).state.trace.countP isFlushEvent =
          (runCafesGo env job idxs st).state.collected.length) := by
  intro idxs
  induction idxs with
  | nil =>
    intro st
    exact ⟨fun p hp => Or.inl hp, fun _ h => h, fun h => h⟩
  | cons i rest ih =>
    intro st
    by_cases hcv : env.cancel st.checks = true
    · have hres : runCafesGo env job (i :: rest) st =
          StepRes.cancelled
            { st with
                checks := st.checks + 1
                trace := st.trace ++ [RunEvent.cancelCheck true] } := by
        simp [runCafesGo, checkCancel, hcv]
      rw [hres]
      refine ⟨fun p hp => Or.inl hp, fun _ h => h, fun h => ?_⟩
      simpa [StepRes.state, List.countP_append, List.countP_cons,
        isFlushEvent] using h
    · have hcv' : env.cancel st.checks = false := by simpa using hcv
      by_cases henough : job.maxPosts ≤ st.collected.length
      · have hres : runCafesGo env job (i :: rest) st =
            runCafesGo env job rest
              { st with
                  checks := st.checks + 1
                  trace := st.trace ++ [RunEvent.cancelCheck false] ++
                    [RunEvent.cafePass i] ++
                    ((collectArticleCandidates (env.cafe i) job.keywords
                      (job.excludeBoards.map normalizeBoardToken) 1).1.map
                      fun kp => RunEvent.searchRequest kp.1 kp.2) } := by
          simp [runCafesGo, checkCancel, hcv', henough]
        rw [hres]
        refine ⟨(ih _).1,
          fun hok h => by apply (ih _).2.1 hok; exact h,
          fun h => (ih _).2.2 ?_⟩
        simpa [List.countP_append, List.countP_cons, isFlushEvent,
          countP_flush_searches] using h
      · have hres : runCafesGo env job (i :: rest) st =
            (match runCandLoop env job i
                (collectArticleCandidates (env.cafe i) job.keywords
                  (job.excludeBoards.map normalizeBoardToken)
                  (cafeCandidateCap job.maxPosts)).2 0
                { st with
                    checks := st.checks + 1
                    trace := st.trace ++ [RunEvent.cancelCheck false] ++
                      [RunEvent.cafePass i] ++
                      ((collectArticleCandidates (env.cafe i) job.keywords
                        (job.excludeBoards.map normalizeBoardToken)
                        (cafeCandidateCap job.maxPosts)).1.map
                        fun kp => RunEvent.searchRequest kp.1 kp.2) } with
             | StepRes.cancelled st2 => StepRes.cancelled st2
             | StepRes.done st2 => runCafesGo env job rest st2) := by
          simp [runCafesGo, checkCancel, hcv', henough]
        have hcand := runCandLoop_inv79 env job i
          (collectArticleCandidates (env.cafe i) job.keywords
            (job.excludeBoards.map normalizeBoardToken)
            (cafeCandidateCap job.maxPosts)).2 0
          { st with
              checks := st.checks + 1
              trace := st.trace ++ [RunEvent.cancelCheck false] ++
                [RunEvent.cafePass i] ++
                ((collectArticleCandidates (env.cafe i) job.keywords
                  (job.excludeBoards.map normalizeBoardToken)
                  (cafeCandidateCap job.maxPosts)).1.map
                  fun kp => RunEvent.searchRequest kp.1 kp.2) }
        rw [hres]
        cases hcl : runCandLoop env job i
            (collectArticleCandidates (env.cafe i) job.keywords
              (job.excludeBoards.map normalizeBoardToken)
              (cafeCandidateCap job.maxPosts)).2 0
            { st with
                checks := st.checks + 1
                trace := st.trace ++ [RunEvent.cancelCheck false] ++
                  [RunEvent.cafePass i] ++
                  ((collectArticleCandidates (env.cafe i) job.keywords
                    (job.excludeBoards.map normalizeBoardToken)
                    (cafeCandidateCap job.maxPosts)).1.map
                    fun kp => RunEvent.searchRequest kp.1 kp.2) } with
        | done st2 =>
          rw [hcl] at hcand
          simp only [StepRes.state] at hcand
          refine ⟨?_, ?_, ?_⟩
          · intro p hp
            rcases (ih st2).1 p hp with hin | hacc
            · exact hcand.1 p hin
            · exact Or.inr hacc
          · intro hok h
            exact (ih st2).2.1 hok (hcand.2.1 hok h)
          · intro h
            apply (ih st2).2.2
            apply hcand.2.2
            simpa [List.countP_append, List.countP_cons, isFlushEvent,
              countP_flush_searches] using h
        | cancelled st2 =>
          rw [hcl] at hcand
          simp only [StepRes.state] at hcand
          refine ⟨?_, ?_, ?_⟩
          · intro p hp
            exact hcand.1 p hp
          · intro hok h
            exact hcand.2.1 hok h
          · intro h
            apply hcand.2.2
            simpa [List.countP_append, List.countP_cons, isFlushEvent,
              countP_flush_searches] using h

/-- C2 as stated is false on the code: in keyword mode the cancel flag is
read once per cafe, before the whole search pass over all of that cafe's
keywords, not before each keyword search. With two keywords in one cafe the
trace shows the second keyword's search request issued with no cancel read
after the first keyword's search. -/
theorem C2_counterexample :
    (runScrapeJob c2Env (fun s => s) [] c2Job).trace =
      [RunEvent.cancelCheck false, RunEvent.cafePass 0,
       RunEvent.searchRequest "a" 1, RunEvent.searchRequest "b" 1,
       RunEvent.cancelCheck false, RunEvent.parseAttempt 2,
       RunEvent.cancelCheck false, RunEvent.parseAttempt 1] ∧
    searchesCancelChecked
      (runScrapeJob c2Env (fun s => s) [] c2Job).trace = false := by
  exact ⟨by decide, by decide⟩

/-- C2 amended: in keyword mode the cancel flag is checked before each
cafe's search-and-collect pass (each cafe pass immediately follows a read)
and before each candidate parse; a true read aborts the run immediately
(the trace ends at that read), `main` maps the thrown signal to terminal
status CANCELLED with message "cancelled by user", CANCELLED occurs exactly
when a read returned true, and the status is never FAILED. -/
theorem C2_cancel_protocol (env : RunEnv) (hash : String → String)
    (store : List StoredPost) (job : JobSpec) :
    parsesCancelChecked (runScrapeJob env hash store job).trace = true ∧
    cafePassesChecked (runScrapeJob env hash store job).trace = true ∧
    ((runScrapeJob env hash store job).status = JobStatus.CANCELLED ↔
      RunEvent.cancelCheck true ∈ (runScrapeJob env hash store job).trace) ∧
    ((runScrapeJob env hash store job).status = JobStatus.CANCELLED →
      (runScrapeJob env hash store job).errorMessage =
        some "cancelled by user" ∧
      (runScrapeJob env hash store job).trace.getLast? =
        some (RunEvent.cancelCheck true)) ∧
    (runScrapeJob env hash store job).status ≠ JobStatus.FAILED := by
  have h := runCafesGo_c2 env job (List.range job.cafeCount) ⟨[], 0, 0, 0, []⟩
    rfl rfl (List.not_mem_nil _)
  cases hr : runCafesGo env job (List.range job.cafeCount)
      ⟨[], 0, 0, 0, []⟩ with
  | done st =>
    rw [hr] at h
    simp only [StepRes.state] at h
    have hnot := h.2.2.1 st rfl
    refine ⟨?_, ?_, ?_, ?_, ?_⟩
    · simpa [runScrapeJob, hr, parsesCancelChecked] using h.1
    · simpa [runScrapeJob, hr, cafePassesChecked] using h.2.1
    · simp only [runScrapeJob, hr]
      exact iff_of_false (by simp) hnot
    · simp [runScrapeJob, hr]
    · simp [runScrapeJob, hr]
  | cancelled st =>
    rw [hr] at h
    simp only [StepRes.state] at h
    have hlast := h.2.2.2 st rfl
    refine ⟨?_, ?_, ?_, ?_, ?_⟩
    · simpa [runScrapeJob, hr, parsesCancelChecked] using h.1
    · simpa [runScrapeJob, hr, cafePassesChecked] using h.2.1
    · simp only [runScrapeJob, hr]
      exact iff_of_true trivial (mem_of_getLast? hlast)
    · simp only [runScrapeJob, hr]
      exact fun _ => ⟨trivial, hlast⟩
    · simp [runScrapeJob, hr]

/-- Witness for the amended C2: the cancel flag turns true after the first
read, and the concrete run ends CANCELLED with the cancellation message at
the true read. -/
theorem C2_cancel_protocol_witness :
    (runScrapeJob c2CancelEnv (fun s => s) [] c2Job).status =
      JobStatus.CANCELLED ∧
    (runScrapeJob c2CancelEnv (fun s => s) [] c2Job).errorMessage =
      some "cancelled by user" ∧
    (runScrapeJob c2CancelEnv (fun s => s) [] c2Job).trace.getLast? =
      some (RunEvent.cancelCheck true) ∧
    parsesCancelChecked
      (runScrapeJob c2CancelEnv (fun s => s) [] c2Job).trace = true ∧
    cafePassesChecked
      (runScrapeJob c2CancelEnv (fun s => s) [] c2Job).trace = true := by
  have h := C2_cancel_protocol c2CancelEnv (fun s => s) [] c2Job
  have hst : (runScrapeJob c2CancelEnv (fun s => s) [] c2Job).status =
      JobStatus.CANCELLED := by decide
  exact ⟨hst, (h.2.2.2.1 hst).1, (h.2.2.2.1 hst).2, h.1, h.2.1⟩

/-! ## C7 -/

/-- C7: a post enters the run's accepted list only as the backfilled form
of a successful extraction that passed the keyword relevance gate: the
combined text (candidate subject, parsed title, content text) contains the
originating keyword as a case- and space-insensitive substring
(`includesKeyword`); a parsed post failing that check contributes nothing. -/
theorem C7_keyword_gate (env : RunEnv) (hash : String → String)
    (store : List StoredPost) (job : JobSpec) (p : ParsedPost)
    (hp : p ∈ (runScrapeJob env hash store job).collected) :
    ∃ i cand parsed, env.parse i cand = some parsed ∧
      includesKeyword (combinedCheckText cand parsed)
        cand.queryKeyword = true ∧
      p = applyCandBackfill cand parsed := by
  have h := (runCafesGo_inv79 env job (List.range job.cafeCount)
    ⟨[], 0, 0, 0, []⟩).1
  cases hr : runCafesGo env job (List.range job.cafeCount)
      ⟨[], 0, 0, 0, []⟩ with
  | done st =>
    rw [hr] at h
    simp only [StepRes.state] at h
    have hpc : p ∈ st.collected := by simpa [runScrapeJob, hr] using hp
    rcases h p hpc with hin | hacc
    · exact absurd hin (List.not_mem_nil p)
    · exact hacc
  | cancelled st =>
    rw [hr] at h
    simp only [StepRes.state] at h
    have hpc : p ∈ st.collected := by simpa [runScrapeJob, hr] using hp
    rcases h p hpc with hin | hacc
    · exact absurd hin (List.not_mem_nil p)
    · exact hacc

/-- Witness for C7: in the concrete run the single accepted post is the
backfilled, keyword-gated parse of candidate 7. -/
theorem C7_keyword_gate_witness :
    ∃ i cand parsed, c7Env.parse i cand = some parsed ∧
      includesKeyword (combinedCheckText cand parsed)
        cand.queryKeyword = true ∧
      (⟨"u", "kw", "kw body", some 9, 3, 5, 4⟩ : ParsedPost) =
        applyCandBackfill cand parsed :=
  C7_keyword_gate c7Env (fun s => s) [] c7Job
    ⟨"u", "kw", "kw body", some 9, 3, 5, 4⟩ (by decide)

/-! ## C9 -/

/-- C9: in keyword mode every accepted post is flushed to the sheet sink
at collection time — the number of flush events and (with a healthy sink)
the `sheetSynced` counter both equal the collected count — while
`resultCount` counts DB inserts taken from the clamp's output, so posts the
clamp drops were already delivered and `sheetSynced` can exceed
`resultCount`, as in the concrete run (2 sheet rows, 1 DB row). -/
theorem C9_sink_before_clamp (env : RunEnv) (hash : String → String)
    (store : List StoredPost) (job : JobSpec)
    (hok : ∀ n, env.sheetOk n = true) :
    (runScrapeJob env hash store job).sheetSynced =
      (runScrapeJob env hash store job).collected.length ∧
    (runScrapeJob env hash store job).trace.countP isFlushEvent =
      (runScrapeJob env hash store job).collected.length ∧
    (runScrapeJob env hash store job).resultCount ≤
      (clampByAutoThreshold (runScrapeJob env hash store job).collected
        job.useAutoFilter job.minViewCount job.minCommentCount).length ∧
    (runScrapeJob c9Env (fun s => s) [] c9Job).sheetSynced = 2 ∧
    (runScrapeJob c9Env (fun s => s) [] c9Job).resultCount = 1 := by
  have h := runCafesGo_inv79 env job (List.range job.cafeCount)
    ⟨[], 0, 0, 0, []⟩
  cases hr : runCafesGo env job (List.range job.cafeCount)
      ⟨[], 0, 0, 0, []⟩ with
  | done st =>
    rw [hr] at h
    simp only [StepRes.state] at h
    refine ⟨?_, ?_, ?_, by decide, by decide⟩
    · simpa [runScrapeJob, hr] using h.2.1 hok rfl
    · simpa [runScrapeJob, hr] using h.2.2 rfl
    · have hle := savePosts_count_le hash store
        ((clampByAutoThreshold st.collected job.useAutoFilter
          job.minViewCount job.minCommentCount).take job.maxPosts)
      have hlen : ((clampByAutoThreshold st.collected job.useAutoFilter
          job.minViewCount job.minCommentCount).take job.maxPosts).length ≤
          (clampByAutoThreshold st.collected job.useAutoFilter
            job.minViewCount job.minCommentCount).length := by
        rw [List.length_take]
        exact min_le_right _ _
      simp only [runScrapeJob, hr]
      exact le_trans hle hlen
  | cancelled st =>
    rw [hr] at h
    simp only [StepRes.state] at h
    refine ⟨?_, ?_, ?_, by decide, by decide⟩
    · simpa [runScrapeJob, hr] using h.2.1 hok rfl
    · simpa [runScrapeJob, hr] using h.2.2 rfl
    · simp [runScrapeJob, hr]

/-- Witness for C9 at the concrete two-post run with a healthy sink. -/
theorem C9_sink_before_clamp_witness :
    (runScrapeJob c9Env (fun s => s) [] c9Job).sheetSynced =
      (runScrapeJob c9Env (fun s => s) [] c9Job).collected.length ∧
    (runScrapeJob c9Env (fun s => s) [] c9Job).trace.countP isFlushEvent =
      (runScrapeJob c9Env (fun s => s) [] c9Job).collected.length ∧
    (runScrapeJob c9Env (fun s => s) [] c9Job).resultCount ≤
      (clampByAutoThreshold
        (runScrapeJob c9Env (fun s => s) [] c9Job).collected
        c9Job.useAutoFilter c9Job.minViewCount c9Job.minCommentCount).length ∧
    (runScrapeJob c9Env (fun s => s) [] c9Job).sheetSynced = 2 ∧
    (runScrapeJob c9Env (fun s => s) [] c9Job).resultCount = 1 :=
  C9_sink_before_clamp c9Env (fun s => s) [] c9Job (fun _ => rfl)

/-! ## Remaining witnesses -/

/-- Witness for C3 at a concrete successful run. -/
theorem C3_maxPosts_cap_witness :
    (runScrapeJob c7Env (fun s => s) [] c7Job).finalPosts.length ≤
      c7Job.maxPosts ∧
    (runScrapeJob c7Env (fun s => s) [] c7Job).resultCount ≤
      c7Job.maxPosts ∧
    (runScrapeJob c7Env (fun s => s) [] c7Job).store.length ≤
      ([] : List StoredPost).length + c7Job.maxPosts ∧
    ((runScrapeJob c7Env (fun s => s) [] c7Job).status =
        JobStatus.SUCCESS →
      (runScrapeJob c7Env (fun s => s) [] c7Job).finalPosts =
        (clampByAutoThreshold
          (runScrapeJob c7Env (fun s => s) [] c7Job).collected
          c7Job.useAutoFilter c7Job.minViewCount
          c7Job.minCommentCount).take c7Job.maxPosts) :=
  C3_maxPosts_cap c7Env (fun s => s) [] c7Job

/-- Witness for C4 at a store already holding the same URL with a
different hash: the post is inserted as a new row. -/
theorem C4_dedup_witness :
    ((saveStep (fun s => s) [⟨"u1", "u1\nc1"⟩]
        ⟨"u1", "tt", "c2", none, 0, 0, 0⟩).2 = false ↔
      (∃ row ∈ [(⟨"u1", "u1\nc1"⟩ : StoredPost)],
        row.contentHash = (fun s => s) ("u1" ++ "\n" ++ "c2")) ∨
      (∃ row, [(⟨"u1", "u1\nc1"⟩ : StoredPost)].find?
          (fun r => r.sourceUrl = "u1") = some row ∧
        row.contentHash = (fun s => s) ("u1" ++ "\n" ++ "c2"))) ∧
    ((saveStep (fun s => s) [⟨"u1", "u1\nc1"⟩]
        ⟨"u1", "tt", "c2", none, 0, 0, 0⟩).2 = true →
      (saveStep (fun s => s) [⟨"u1", "u1\nc1"⟩]
        ⟨"u1", "tt", "c2", none, 0, 0, 0⟩).1 =
        [⟨"u1", "u1\nc1"⟩] ++ [⟨"u1", (fun s => s) ("u1" ++ "\n" ++ "c2")⟩]) ∧
    ((∀ row ∈ [(⟨"u1", "u1\nc1"⟩ : StoredPost)],
        row.contentHash ≠ (fun s => s) ("u1" ++ "\n" ++ "c2")) →
      (saveStep (fun s => s) [⟨"u1", "u1\nc1"⟩]
        ⟨"u1", "tt", "c2", none, 0, 0, 0⟩).2 = true) ∧
    (runScrapeJob c7Env (fun s => s) [⟨"u1", "u1\nc1"⟩] c7Job).sheetSynced =
      (runScrapeJob c7Env (fun s => s) [] c7Job).sheetSynced :=
  C4_dedup (fun s => s) [⟨"u1", "u1\nc1"⟩] ⟨"u1", "tt", "c2", none, 0, 0, 0⟩
    c7Env c7Job []

/-- Witness for C5 at the concrete batch with view counts 10..50. -/
theorem C5_auto_median_witness :
    appliedMin true none (c5Posts.map (·.viewCount)) = some 30 ∧
    ∀ p ∈ clampByAutoThreshold c5Posts true none none, 30 ≤ p.viewCount :=
  C5_auto_median c5Posts none (by decide)

end NaverBC
